import Mathlib

/-!
Verification development for the natural-language-to-SQL query pipeline
(backend of the intelligent query system).

Shallow embedding of the Python sources:
  * `app/security/sql_firewall.py`  — SQL firewall (AST-level policy)
  * `app/security/query_limiter.py` — sliding-window rate limiter
  * `app/api/routes/query.py`       — per-request state-machine construction
  * `app/core/llm_engine.py`        — JSON extraction policy of the LLM engine
  * `app/core/state_machine.py`     — event-emitting query state machine
  * `app/db/executor.py`            — QueryResult and its ECharts projection
  * `app/rag/schema_extractor.py`   — embedding-document formatting

Machine integers are modelled as `Nat`/`Int`; Python `float` timestamps are
modelled as `ℚ` (every IEEE float is a rational).  Fallible code returns
`Option`/`Except`.  External libraries (the sqlglot parser/serializer, the
JSON codec of the standard library) are modelled as explicit function
parameters; everything the repository's own code does is translated
definition-by-definition from the source.
-/

/-! ### Python primitive helpers -/

/-- Characters matched by the regex class `\s` (also the ASCII fragment of
Python's `str.strip` whitespace set). -/
def isReWs (c : Char) : Bool :=
  c = ' ' || c = '\t' || c = '\n' || c = '\r' || c = '\x0b' || c = '\x0c'

/-- Python `s.strip()`: drop whitespace from both ends. -/
def pyStrip (s : String) : String :=
  String.mk (((s.toList.dropWhile isReWs).reverse.dropWhile isReWs).reverse)

/-- Python `int(s)` on a string: optional surrounding whitespace, optional
sign, then decimal digits.  Returns `none` where Python raises `ValueError`. -/
def pyInt (s : String) : Option Int :=
  let t := (pyStrip s).toList
  let signDigits : Bool × List Char :=
    match t with
    | '-' :: rest => (true, rest)
    | '+' :: rest => (false, rest)
    | _ => (false, t)
  if signDigits.2 ≠ [] ∧ signDigits.2.all Char.isDigit then
    let n : Nat := signDigits.2.foldl (fun acc c => acc * 10 + (c.toNat - 48)) 0
    some (if signDigits.1 then -(n : Int) else (n : Int))
  else none

/-- Python `s.rstrip(";")`: drop every trailing semicolon. -/
def pyRstripSemi (s : String) : String :=
  String.mk ((s.toList.reverse.dropWhile (fun c => c = ';')).reverse)

/-- Python `s.lower()` (ASCII fragment). -/
def pyLower (s : String) : String :=
  String.mk (s.toList.map Char.toLower)

/-! ### SQL firewall — `app/security/sql_firewall.py`

The sqlglot AST is modelled by `Stmt`.  The firewall consumes only these
projections of a statement: its top-level category (the `isinstance` checks
against `BLOCKED_STATEMENT_TYPES` and `exp.Select`), the roots of all
`exp.Subquery` nodes, the names of all `exp.Anonymous` / `exp.Func` nodes,
and the `exp.Limit` nodes.  A SELECT therefore carries its own LIMIT clause,
the inner statements of its subqueries (recursively, so `find_all` reaches
nested subqueries), and its function-call names; payloads of non-SELECT
nodes that the firewall never inspects are elided. -/

/-- The `exp.Limit` node's `expression` argument: either a `Literal` whose
`this` is the string `s`, or a non-literal expression (on which
`int(limit_node.expression.this)` raises and the firewall leaves the
statement unchanged). -/
inductive LimitE where
  | lit (s : String)
  | nonLit
deriving DecidableEq, Repr

/-- A parsed top-level statement or subquery root (category-level model of
the sqlglot expression tree). -/
inductive Stmt where
  /-- `exp.Insert` -/
  | insert
  /-- `exp.Update` -/
  | update
  /-- `exp.Delete` -/
  | delete
  /-- `exp.Drop` -/
  | drop
  /-- `exp.Create` -/
  | create
  /-- `exp.Alter` -/
  | alter
  /-- `exp.Command` (TRUNCATE, GRANT, ...) -/
  | command
  /-- any other non-SELECT expression class, carrying its class name -/
  | other (name : String)
  /-- `exp.Select`: own LIMIT clause, inner statements of its `exp.Subquery`
  children, names of its `exp.Anonymous` calls, names of its other
  `exp.Func` calls -/
  | select (limitCl : Option LimitE) (subqueries : List Stmt)
      (anonCalls : List String) (funcCalls : List String)
deriving Repr

/-- `isinstance(statement, BLOCKED_STATEMENT_TYPES)`. -/
def isBlockedStmt : Stmt → Bool
  | .insert | .update | .delete | .drop | .create | .alter | .command => true
  | _ => false

/-- `type(statement).__name__`. -/
def stmtTypeName : Stmt → String
  | .insert => "Insert"
  | .update => "Update"
  | .delete => "Delete"
  | .drop => "Drop"
  | .create => "Create"
  | .alter => "Alter"
  | .command => "Command"
  | .other n => n
  | .select _ _ _ _ => "Select"

/-- `s` is a SELECT (`isinstance(statement, exp.Select)`). -/
def isSelectStmt : Stmt → Bool
  | .select _ _ _ _ => true
  | _ => false

mutual
/-- Whether `node.find_all(exp.Subquery)` reaches a subquery whose inner
statement (`subquery.this`) is a blocked category. -/
def hasBlockedSubquery : Stmt → Bool
  | .select _ subs _ _ => hasBlockedSubqueryList subs
  | _ => false

def hasBlockedSubqueryList : List Stmt → Bool
  | [] => false
  | s :: rest => isBlockedStmt s || hasBlockedSubquery s || hasBlockedSubqueryList rest
end

mutual
/-- Names of all `exp.Anonymous` nodes in the tree (`find_all`). -/
def allAnon : Stmt → List String
  | .select _ subs anons _ => anons ++ allAnonList subs
  | _ => []

def allAnonList : List Stmt → List String
  | [] => []
  | s :: rest => allAnon s ++ allAnonList rest
end

mutual
/-- Names (`sql_name()` / `key`) of all other `exp.Func` nodes in the tree. -/
def allFuncs : Stmt → List String
  | .select _ subs _ funcs => funcs ++ allFuncsList subs
  | _ => []

def allFuncsList : List Stmt → List String
  | [] => []
  | s :: rest => allFuncs s ++ allFuncsList rest
end

mutual
/-- `statement.find(exp.Limit)`: breadth-first search, so the statement's own
LIMIT clause (a direct child) is found before any LIMIT nested inside a
subquery. -/
def findLimitStmt : Stmt → Option LimitE
  | .select l subs _ _ =>
    match l with
    | some le => some le
    | none => findLimitList subs
  | _ => none

def findLimitList : List Stmt → Option LimitE
  | [] => none
  | s :: rest =>
    match findLimitStmt s with
    | some le => some le
    | none => findLimitList rest
end

/-- `BLOCKED_FUNCTIONS`. -/
def blockedFunctions : List String :=
  ["pg_sleep", "pg_terminate_backend", "pg_cancel_backend",
   "lo_import", "lo_export", "dblink", "dblink_exec", "copy"]

/-- First function name in `names` whose lower-cased form is blocklisted,
returned lower-cased (the firewall lowers the name before the check and
reports the lowered name). -/
def firstBlockedName (names : List String) : Option String :=
  match names.find? (fun n => blockedFunctions.contains (pyLower n)) with
  | some n => some (pyLower n)
  | none => none

/-- The typed `SQLFirewallError` (code plus the data interpolated into its
message). -/
inductive FwError where
  | emptySql
  | parseError (msg : String)
  | blockedStatement (stmtType : String)
  | nonSelect (stmtType : String)
  | blockedSubquery
  | blockedFunction (fn : String)
deriving DecidableEq, Repr

/-- The `code` attribute of the raised `SQLFirewallError`. -/
def FwError.code : FwError → String
  | .emptySql => "EMPTY_SQL"
  | .parseError _ => "PARSE_ERROR"
  | .blockedStatement _ => "BLOCKED_STATEMENT"
  | .nonSelect _ => "NON_SELECT"
  | .blockedSubquery => "BLOCKED_SUBQUERY"
  | .blockedFunction _ => "BLOCKED_FUNCTION"

/-- `SQLFirewall._check_dangerous_nodes`: first the subquery scan, then the
`exp.Anonymous` scan, then the `exp.Func` scan. -/
def check_dangerous_nodes (s : Stmt) : Option FwError :=
  if hasBlockedSubquery s then some .blockedSubquery
  else
    match firstBlockedName (allAnon s) with
    | some n => some (.blockedFunction n)
    | none =>
      match firstBlockedName (allFuncs s) with
      | some n => some (.blockedFunction n)
      | none => none

/-- `SQLFirewall._ensure_limit`: `find` the first LIMIT anywhere in the tree;
if none, set the statement's own LIMIT to `max_rows`; if it is an integer
literal greater than `max_rows`, set the statement's own LIMIT to
`max_rows`; otherwise leave the statement unchanged. -/
def ensure_limit (maxRows : Nat) : Stmt → Stmt
  | .select l subs a f =>
    match findLimitStmt (.select l subs a f) with
    | none => .select (some (.lit (toString maxRows))) subs a f
    | some (.lit s) =>
      match pyInt s with
      | some v =>
        if v > (maxRows : Int) then .select (some (.lit (toString maxRows))) subs a f
        else .select l subs a f
      | none => .select l subs a f
    | some .nonLit => .select l subs a f
  | s => s

/-- The per-statement checks of the `for statement in parsed:` loop body, in
source order: blocked category → `BLOCKED_STATEMENT`; not a SELECT →
`NON_SELECT`; otherwise `_check_dangerous_nodes`. -/
def stmt_check (s : Stmt) : Option FwError :=
  if isBlockedStmt s then some (.blockedStatement (stmtTypeName s))
  else if isSelectStmt s then check_dangerous_nodes s
  else some (.nonSelect (stmtTypeName s))

/-- The statement loop of `SQLFirewall.validate`: skip `None` entries, raise
on the first failing check, and collect each surviving statement after
`_ensure_limit`. -/
def validateStmts (maxRows : Nat) : List (Option Stmt) → Except FwError (List Stmt)
  | [] => .ok []
  | none :: rest => validateStmts maxRows rest
  | some s :: rest =>
    match stmt_check s with
    | some e => .error e
    | none =>
      match validateStmts maxRows rest with
      | .error e => .error e
      | .ok l => .ok (ensure_limit maxRows s :: l)

/-- `SQLFirewall.validate` up to (but not including) re-serialization:
empty-input check, strip/rstrip, parse (`parse` models
`sqlglot.parse(-, dialect="postgres")`, returning `.error msg` where sqlglot
raises), empty-parse check, then the statement loop. -/
def validateSels (parse : String → Except String (List (Option Stmt)))
    (maxRows : Nat) (sql : String) : Except FwError (List Stmt) :=
  if pyStrip sql = "" then .error .emptySql
  else
    let sql1 := pyRstripSemi (pyStrip sql)
    match parse sql1 with
    | .error msg => .error (.parseError ("SQL 语法解析失败: " ++ msg))
    | .ok stmts =>
      if stmts.isEmpty then .error (.parseError "SQL 解析结果为空")
      else validateStmts maxRows stmts

/-- `SQLFirewall.validate`: the safe statements re-serialized with
`render` (modelling `stmt.sql(dialect="postgres")`) and joined with "; ". -/
def validate (parse : String → Except String (List (Option Stmt)))
    (render : Stmt → String) (maxRows : Nat) (sql : String) :
    Except FwError String :=
  match validateSels parse maxRows sql with
  | .error e => .error e
  | .ok sels => .ok (String.intercalate "; " (sels.map render))

/-! ### Query limiter — `app/security/query_limiter.py`

`time.time()` values are modelled as rationals.  The per-client map
`_request_timestamps` (a `defaultdict(list)`) is modelled as a total
function from client id to timestamp list, empty by default. -/

/-- The trim on every check: keep `ts` with `ts > now - 60`. -/
def trimWindow (now : ℚ) (l : List ℚ) : List ℚ :=
  l.filter (fun ts => decide (now - 60 < ts))

/-- Pointwise map update. -/
def updMap (st : String → List ℚ) (cid : String) (v : List ℚ) : String → List ℚ :=
  fun c => if c = cid then v else st c

/-- `QueryLimiter.check_rate_limit`: trim the client's list (the trimmed list
is written back even on rejection), raise `RATE_LIMIT` when the retained
count is at or above `max_rpm`, otherwise append the current timestamp.
Returns the updated map and the raised error, if any. -/
def check_rate_limit (maxRpm : Nat) (now : ℚ) (cid : String)
    (st : String → List ℚ) : (String → List ℚ) × Option (String × String) :=
  let trimmed := trimWindow now (st cid)
  if maxRpm ≤ trimmed.length then
    (updMap st cid trimmed, some ("RATE_LIMIT", "查询频率超限"))
  else
    (updMap st cid (trimmed ++ [now]), none)

/-- One admission attempt in a sequence of calls: feed `(time, client)` to
`check_rate_limit`, recording the call in the admitted list when no error is
raised. -/
def stepCall (maxRpm : Nat) (acc : (String → List ℚ) × List (ℚ × String))
    (c : ℚ × String) : (String → List ℚ) × List (ℚ × String) :=
  let r := check_rate_limit maxRpm c.1 c.2 acc.1
  (r.1, if r.2.isNone then acc.2 ++ [c] else acc.2)

/-- `QueryLimiter.__init__` sets `_request_timestamps = defaultdict(list)`:
every client starts with the empty list. -/
def freshLimiterMap : String → List ℚ := fun _ => []

/-- Run a whole sequence of `check_rate_limit` calls against one limiter
instance, starting from the fresh map; returns the final map and the list of
admitted calls. -/
def runLimiter (maxRpm : Nat) (calls : List (ℚ × String)) :
    (String → List ℚ) × List (ℚ × String) :=
  calls.foldl (stepCall maxRpm) (freshLimiterMap, [])

/-- The admitted timestamps of one client. -/
def admittedTimes (cid : String) (adm : List (ℚ × String)) : List ℚ :=
  (adm.filter (fun p => decide (p.2 = cid))).map Prod.fst

/-! ### Per-request state-machine construction — `app/api/routes/query.py`

`_sse_event_generator` calls `_build_state_machine()` for every incoming
request; `_build_state_machine` constructs a brand-new `QueryLimiter(...)`,
whose `__init__` creates a fresh empty `_request_timestamps` map. -/

/-- The `_request_timestamps` map of the `QueryLimiter` constructed by
`_build_state_machine()` — fresh and empty on every call. -/
def build_state_machine_limiterMap : String → List ℚ := freshLimiterMap

/-! ### JSON values and query results — `app/db/executor.py`

`JVal` models the Python objects produced by `json.loads`; `Cell` models the
JSON-scalar cells produced by `SQLExecutor._serialize_value` (a float cell
carries its Python `str` rendering, which the model never needs to compute). -/

/-- A JSON value as a Python object.  Numbers carry their literal rendering;
objects are association lists with unique keys in insertion order (what
`json.loads` produces). -/
inductive JVal where
  | jnull
  | jbool (b : Bool)
  | jnum (n : String)
  | jstr (s : String)
  | jarr (xs : List JVal)
  | jobj (fields : List (String × JVal))

/-- Dict lookup: `o[k]` / `o.get(k)` / `k in o`. -/
def jGet (o : List (String × JVal)) (k : String) : Option JVal :=
  match o.find? (fun p => p.1 = k) with
  | some p => some p.2
  | none => none

/-- Dict assignment `o[k] = v`: replace the existing key in place, or append
a new key (Python dicts preserve insertion order). -/
def jSet (o : List (String × JVal)) (k : String) (v : JVal) :
    List (String × JVal) :=
  match o with
  | [] => [(k, v)]
  | p :: rest => if p.1 = k then (k, v) :: rest else p :: jSet rest k v

/-- Python truthiness of a JSON value (`if echarts_option:`). -/
def jTruthy : JVal → Bool
  | .jnull => false
  | .jbool b => b
  | .jnum n => !(n = "0" || n = "0.0" || n = "-0" || n = "-0.0")
  | .jstr s => !s.isEmpty
  | .jarr xs => !xs.isEmpty
  | .jobj fs => !fs.isEmpty

/-- A JSON-scalar result cell (`None`, bool, int, float, str) as produced by
`SQLExecutor._serialize_value`.  A float carries its `str` rendering. -/
inductive Cell where
  | cnull
  | cbool (b : Bool)
  | cint (n : Int)
  | cfloat (r : String)
  | cstr (s : String)
deriving DecidableEq, Repr

/-- Python `str(cell)`. -/
def pyStrCell : Cell → String
  | .cnull => "None"
  | .cbool true => "True"
  | .cbool false => "False"
  | .cint n => toString n
  | .cfloat r => r
  | .cstr s => s

/-- The cell as the JSON value it round-trips to. -/
def cellToJ : Cell → JVal
  | .cnull => .jnull
  | .cbool b => .jbool b
  | .cint n => .jnum (toString n)
  | .cfloat r => .jnum r
  | .cstr s => .jstr s

/-- `QueryResult` (`columns`, `rows`; `row_count` and `execution_time_ms` are
derived/measured and not needed by the claims under verification). -/
structure QueryResultM where
  columns : List String
  rows : List (List Cell)
deriving Repr

/-- `to_echarts_data`'s return value: with no rows the method returns
`{"categories": [], "values": []}` — no `"series"` key at all — modelled by
`series = none`. -/
structure EchartsData where
  categories : List String
  series : Option (List (String × List Cell))

/-- `series_data[col] = values` on a Python (insertion-ordered) dict,
modelled on an association list: an existing key keeps its position and
takes the new value, a new key is appended at the end. -/
def dictInsert (m : List (String × List Cell)) (k : String) (v : List Cell) :
    List (String × List Cell) :=
  if m.any (fun p => p.1 == k) then
    m.map (fun p => if p.1 == k then (p.1, v) else p)
  else m ++ [(k, v)]

/-- `QueryResult.to_echarts_data`: first column stringified as categories,
each remaining column keyed by its name
(`row[i] if i < len(row) else None`) through the `series_data` dict — a
duplicate column name collapses into one entry, last value winning. -/
def to_echarts_data (qr : QueryResultM) : EchartsData :=
  match qr.rows with
  | [] => ⟨[], none⟩
  | _ =>
    ⟨qr.rows.map (fun r => pyStrCell (r.headD .cnull)),
     some ((qr.columns.drop 1).enum.foldl
       (fun m p => dictInsert m p.2
         (qr.rows.map (fun r => r.getD (p.1 + 1) Cell.cnull))) [])⟩

/-- `echarts_data.get("series")` used as a boolean: `None` and `{}` are both
falsy. -/
def seriesTruthy (e : EchartsData) : Bool :=
  match e.series with
  | some l => !l.isEmpty
  | none => false

/-! ### `QueryStateMachine._fill_echarts_data` — `app/core/state_machine.py`

Each of the three passes is translated separately; `none` models the
uncaught `TypeError`/`AttributeError` Python raises when the option's shape
does not match what the code indexes into (the enclosing `try` only catches
`json.JSONDecodeError`). -/

/-- Pass 1: fill `xAxis.data` (object case), or the first entry's `data`
(non-empty list case). -/
def fillXAxis (cats : List String) (opt : List (String × JVal)) :
    Option (List (String × JVal)) :=
  match jGet opt "xAxis" with
  | none => some opt
  | some (.jobj x) =>
    some (jSet opt "xAxis" (.jobj (jSet x "data" (.jarr (cats.map .jstr)))))
  | some (.jarr []) => some opt
  | some (.jarr (h :: tl)) =>
    match h with
    | .jobj x0 =>
      some (jSet opt "xAxis"
        (.jarr (.jobj (jSet x0 "data" (.jarr (cats.map .jstr))) :: tl)))
    | _ => none
  | some _ => some opt

/-- Pass 2 per-item update: set the series item's `data` to the value
column, and its `name` to the column key when it has no `name`. -/
def seriesFillItem (entry : String × List Cell) (o : List (String × JVal)) :
    List (String × JVal) :=
  let o1 := jSet o "data" (.jarr (entry.2.map cellToJ))
  if (jGet o1 "name").isNone then jSet o1 "name" (.jstr entry.1) else o1

/-- Pass 2 loop body over `enumerate(option["series"])`: for `i` below the
number of value columns the item must be a dict and is updated by
`seriesFillItem`; later items are left untouched. -/
def fillSeriesLoop (sv : List (String × List Cell)) :
    Nat → List JVal → Option (List JVal)
  | _, [] => some []
  | i, item :: rest =>
    if h : i < sv.length then
      match item with
      | .jobj o =>
        match fillSeriesLoop sv (i + 1) rest with
        | some l => some (.jobj (seriesFillItem (sv.get ⟨i, h⟩) o) :: l)
        | none => none
      | _ => none
    else
      match fillSeriesLoop sv (i + 1) rest with
      | some l => some (item :: l)
      | none => none

/-- The `[{name, value}]` pairs a pie series receives: category column
zipped with the first value column, entries with a `None` value dropped. -/
def piePairs (cats : List String) (vals : List Cell) : List JVal :=
  (cats.zip vals).filterMap
    (fun p =>
      match p.2 with
      | .cnull => none
      | v => some (.jobj [("name", .jstr p.1), ("value", cellToJ v)]))

/-- Pass 3 per-item: a dict whose `type` is `"pie"` (when the series data is
truthy) gets its `data` replaced by `piePairs`; a non-dict item makes
`series_item.get` raise. -/
def pieItem (ed : EchartsData) (item : JVal) : Option JVal :=
  match item with
  | .jobj o =>
    let isPie : Bool :=
      match jGet o "type" with
      | some (.jstr t) => t = "pie"
      | _ => false
    if isPie && seriesTruthy ed then
      match ed.series with
      | some ((_, vals) :: _) =>
        some (.jobj (jSet o "data" (.jarr (piePairs ed.categories vals))))
      | _ => some (.jobj o)
    else some (.jobj o)
  | _ => none

/-- Pass 3 over the whole series list. -/
def pieLoop (ed : EchartsData) : List JVal → Option (List JVal)
  | [] => some []
  | item :: rest =>
    match pieItem ed item with
    | some it => (pieLoop ed rest).map (it :: ·)
    | none => none

/-- Pass 2 dispatch: runs only under
`if "series" in option and echarts_data.get("series"):`; iterating a
non-list is a type error unless the iteration is empty. -/
def fillSeriesPass (ed : EchartsData) (opt : List (String × JVal)) :
    Option (List (String × JVal)) :=
  match jGet opt "series" with
  | none => some opt
  | some sv =>
    if seriesTruthy ed then
      match sv with
      | .jarr items =>
        match fillSeriesLoop (ed.series.getD []) 0 items with
        | some items' => some (jSet opt "series" (.jarr items'))
        | none => none
      | .jstr "" => some opt
      | .jobj [] => some opt
      | _ => none
    else some opt

/-- Pass 3 dispatch: runs under `if "series" in option:` alone. -/
def piePass (ed : EchartsData) (opt : List (String × JVal)) :
    Option (List (String × JVal)) :=
  match jGet opt "series" with
  | none => some opt
  | some sv =>
    match sv with
    | .jarr items =>
      match pieLoop ed items with
      | some items' => some (jSet opt "series" (.jarr items'))
      | none => none
    | .jstr "" => some opt
    | .jobj [] => some opt
    | _ => none

/-- `QueryStateMachine._fill_echarts_data`. -/
def fill_echarts_data (opt : List (String × JVal)) (qr : QueryResultM) :
    Option (List (String × JVal)) :=
  match fillXAxis (to_echarts_data qr).categories opt with
  | none => none
  | some o1 =>
    match fillSeriesPass (to_echarts_data qr) o1 with
    | none => none
    | some o2 => piePass (to_echarts_data qr) o2

/-! ### LLM engine JSON extraction — `app/core/llm_engine.py`

`json.loads` is modelled by an explicit parameter
`J : String → Option (List (String × JVal))` (success means the body parsed
as a JSON object).  The fenced-block regex
`r'```(?:json)?\s*\n?(.*?)\n?```'` with `re.DOTALL` is translated into an
executable scanner: the match starts at the leftmost backtick fence from
which a closing fence exists; `json` is consumed when literally present
(consuming it never loses a match, as fences contain no backtick), `\s*` is
maximal (shrinking it only shifts characters into the lazy group), and the
lazy group ends at the first subsequent fence, giving up one trailing
newline to `\n?`. -/

/-- The lazy body of the fence: characters before the first closing
triple-backtick, minus a single trailing newline consumed by `\n?`.
Returns `none` when no closing fence exists. -/
def fenceBody : List Char → Option (List Char)
  | '`' :: '`' :: '`' :: _ => some []
  | c :: rest =>
    match fenceBody rest with
    | some g => some (c :: g)
    | none => none
  | [] => none

/-- Attempt the fence match directly after an opening triple-backtick:
`(?:json)?` then `\s*` then the lazy group. -/
def fenceAfterOpen (cs : List Char) : Option (List Char) :=
  let cs1 := if ['j', 's', 'o', 'n'].isPrefixOf cs then cs.drop 4 else cs
  let cs2 := cs1.dropWhile isReWs
  match fenceBody cs2 with
  | some g => some (if g.getLast? = some '\n' then g.dropLast else g)
  | none => none

/-- Leftmost match of the fenced-block regex over the whole input. -/
def fenceScan : List Char → Option (List Char)
  | [] => none
  | c :: rest =>
    match c, rest with
    | '`', '`' :: '`' :: body =>
      match fenceAfterOpen body with
      | some g => some g
      | none => fenceScan rest
    | _, _ => fenceScan rest

/-- `re.search(r'```(?:json)?\s*\n?(.*?)\n?```', content, re.DOTALL)` —
the captured group of the first fenced code block, as a string. -/
def extract_fenced (content : String) : Option String :=
  (fenceScan content.toList).map String.mk

/-- `content.find('{')` / `content.rfind('}')` slice: the substring from the
first opening brace to the last closing brace inclusive, when
`brace_end > brace_start`. -/
def braces_slice (content : String) : Option String :=
  let cs := content.toList
  match cs.findIdx? (fun c => c = '\x7b') with
  | none => none
  | some i =>
    match (cs.reverse.findIdx? (fun c => c = '\x7d')).map
        (fun k => cs.length - 1 - k) with
    | none => none
    | some j => if i < j then some (String.mk ((cs.take (j + 1)).drop i)) else none

/-- `LLMEngine._parse_response`: strategy 1 — the full body; strategy 2 — the
first fenced block's captured group; strategy 3 — the brace slice; `none`
when all three fail. -/
def parse_response (J : String → Option (List (String × JVal)))
    (content : String) : Option (List (String × JVal)) :=
  match J content with
  | some v => some v
  | none =>
    match (extract_fenced content).bind J with
    | some v => some v
    | none => (braces_slice content).bind J

/-- The events `generate_stream` yields after the stream has completed (the
per-chunk `thinking_delta` events precede these).  `if parsed:` is falsy
both for `None` and for an empty parsed object, so both take the
`PARSE_FAILED` branch.  The payload of `viz_config` is the
`echarts_option` object itself (the source serializes it with `json.dumps`
before yielding; the state machine parses it right back). -/
def generate_stream_tail (parsed : Option (List (String × JVal))) :
    List (String × JVal) :=
  match parsed with
  | some (f :: p) =>
    let eo := (jGet (f :: p) "echarts_option").getD (.jobj [])
    [("thinking_full", (jGet (f :: p) "thinking").getD (.jstr "")),
     ("sql", (jGet (f :: p) "sql").getD (.jstr ""))]
    ++ (if jTruthy eo then [("viz_config", eo)] else [])
  | _ =>
    [("error", .jobj [("code", .jstr "PARSE_FAILED"),
                      ("message", .jstr "模型输出格式异常，无法解析为结构化 JSON")])]

/-! ### Query state machine — `app/core/state_machine.py`

`QueryStateMachine.run` is an async generator over injected dependencies;
it is embedded as a pure function from an oracle environment (the outcomes
of the limiter, the LLM stream, the firewall, the executor, and the two
`json.loads` calls) to the list of emitted SSE events.  A path on which the
generator dies from an uncaught exception simply truncates the event list. -/

/-- An emitted SSE event (`_event(event_type, data)`), with its payload. -/
inductive EData where
  | stateD (s : String)
  | thoughtD (content : String) (done : Bool)
  | sqlD (content raw : String)
  | dataD (qr : QueryResultM)
  | chartTypeD (t : String)
  | vizD (opt : List (String × JVal))
  | errorD (code msg : String)
  | doneD (msg : String)

/-- The event's `event` field. -/
def EData.tag : EData → String
  | .stateD _ => "state"
  | .thoughtD _ _ => "thought"
  | .sqlD _ _ => "sql"
  | .dataD _ => "data"
  | .chartTypeD _ => "chart_type"
  | .vizD _ => "viz_config"
  | .errorD _ _ => "error"
  | .doneD _ => "done"

/-- Accumulator of the `async for event_type, content in generate_stream`
loop: emitted events, `full_thinking`, `sql`, `viz_config`, `chart_type`,
and `llm_error`. -/
structure LlmAcc where
  events : List EData
  thinking : String
  sql : String
  viz : String
  chart : String
  err : Option String

/-- The LLM-stream consumption loop of `run`, started with
`full_thinking = sql = viz_config = ""` and `chart_type = "bar"`; breaks at
the first `error` event. -/
def llmLoop : List (String × String) → String → String → String → String → LlmAcc
  | [], ft, sq, vz, ct => ⟨[], ft, sq, vz, ct, none⟩
  | (et, c) :: rest, ft, sq, vz, ct =>
    if et = "thinking_delta" then
      let r := llmLoop rest ft sq vz ct
      ⟨.thoughtD c false :: r.events, r.thinking, r.sql, r.viz, r.chart, r.err⟩
    else if et = "thinking_full" then
      let r := llmLoop rest c sq vz ct
      ⟨.thoughtD c true :: r.events, r.thinking, r.sql, r.viz, r.chart, r.err⟩
    else if et = "sql" then llmLoop rest ft c vz ct
    else if et = "chart_type" then llmLoop rest ft sq vz c
    else if et = "viz_config" then llmLoop rest ft sq c ct
    else if et = "error" then ⟨[], ft, sq, vz, ct, some c⟩
    else llmLoop rest ft sq vz ct

/-- Outcome of `limiter.execute_with_timeout(executor.execute(...))`:
a `QueryLimiterError` (caught first), any other exception, or a result. -/
inductive ExecOutcome where
  | limiterErr (code msg : String)
  | execErr (msg : String)
  | ok (qr : QueryResultM)

/-- Oracle environment for one run: outcomes of every injected dependency
and of the two `json.loads` calls `run` performs. -/
structure RunEnv where
  /-- `check_rate_limit` outcome: `some (code, message)` when it raises. -/
  rateErr : Option (String × String)
  /-- the `(event_type, content)` pairs produced by `generate_stream`. -/
  llmEvents : List (String × String)
  /-- `json.loads(llm_error)`: `none` models an uncaught decode error. -/
  parseErr : String → Option (String × String)
  /-- `firewall.validate(sql)` — deterministic, so identical on each retry. -/
  validateSql : String → Except (String × String) String
  /-- outcome of the guarded executor call. -/
  execResult : ExecOutcome
  /-- `json.loads(viz_config)` as a JSON object: `none` models
  `json.JSONDecodeError` (caught: the viz event is skipped). -/
  vizParse : String → Option (List (String × JVal))

/-- The events of the final result-streaming and completion stages. -/
def tailEvents (env : RunEnv) (qr : QueryResultM) (vz ct : String) : List EData :=
  .stateD "result_streaming" :: .dataD qr :: .chartTypeD ct ::
  (if vz ≠ "" then
    match env.vizParse vz with
    | some opt =>
      match fill_echarts_data opt qr with
      | some filled => [.vizD filled, .stateD "completed", .doneD "查询完成"]
      | none => []  -- uncaught TypeError inside the try: the generator dies
    | none => [.stateD "completed", .doneD "查询完成"]  -- JSONDecodeError caught
  else [.stateD "completed", .doneD "查询完成"])

/-- `QueryStateMachine.run`: the full event sequence of one run. -/
def runSM (maxRetries : Nat) (env : RunEnv) : List EData :=
  match env.rateErr with
  | some e => [.errorD e.1 e.2]
  | none =>
    .stateD "schema_retrieval" :: .stateD "llm_generation" ::
    (let r := llmLoop env.llmEvents "" "" "" "bar"
     r.events ++
     match r.err with
     | some ec =>
       match env.parseErr ec with
       | some e => [.errorD e.1 e.2]
       | none => []  -- json.loads raised: the generator dies before yielding
     | none =>
       if r.sql = "" then
         [.thoughtD (if r.thinking = "" then "无法为该问题生成 SQL 查询" else r.thinking) true,
          .errorD "NO_SQL" "模型未生成有效 SQL"]
       else
         .stateD "sql_validation" ::
         if maxRetries = 0 then
           [.errorD "VALIDATION_FAILED" "SQL 校验失败"]
         else
           match env.validateSql r.sql with
           | .error e =>
             List.replicate (maxRetries - 1)
               (.thoughtD ("SQL 校验未通过: " ++ e.2 ++ "，尝试重新生成...") false)
             ++ [.errorD e.1 e.2]
           | .ok s =>
             if s = "" then [.errorD "VALIDATION_FAILED" "SQL 校验失败"]
             else
               .sqlD s r.sql :: .stateD "sql_execution" ::
               match env.execResult with
               | .limiterErr code msg => [.errorD code msg]
               | .execErr msg => [.errorD "EXECUTION_ERROR" ("查询执行失败: " ++ msg)]
               | .ok qr => tailEvents env qr r.viz r.chart)

/-! ### Schema extractor — `app/rag/schema_extractor.py` -/

/-- A column descriptor as extracted from `information_schema.columns`. -/
structure ColumnD where
  name : String
  dataType : String
  nullable : Bool
  colDefault : String
  comment : String

/-- A foreign-key edge. -/
structure ForeignKeyD where
  column : String
  refTable : String
  refColumn : String

/-- A table descriptor. -/
structure TableD where
  tableName : String
  tableComment : String
  columns : List ColumnD
  foreignKeys : List ForeignKeyD

/-- An embeddable schema document. -/
structure SchemaDoc where
  id : String
  text : String
  metaTableName : String
  metaTableComment : String
  metaColumnCount : Nat

/-- `"\n".join(...)` / `"；".join(...)`. -/
def strJoin (sep : String) : List String → String
  | [] => ""
  | [x] => x
  | x :: rest => x ++ sep ++ strJoin sep rest

/-- The document body `format_for_embedding` builds for one table: the
table name and comment, each column as `name(type): comment` (one per
line), and — when foreign keys exist — each edge as
`col 关联 ref_table.ref_column`, joined with `；`. -/
def embedBody (t : TableD) : String :=
  let colDescs := t.columns.map
    (fun c => c.name ++ "(" ++ c.dataType ++ "): " ++ c.comment)
  let text0 := "表 " ++ t.tableName ++ "（" ++ t.tableComment ++ "）包含以下字段：\n"
    ++ strJoin "\n" colDescs
  if t.foreignKeys.isEmpty then text0
  else text0 ++ "\n外键关系：" ++ strJoin "；"
    (t.foreignKeys.map (fun fk => fk.column ++ " 关联 " ++ fk.refTable ++ "." ++ fk.refColumn))

/-- `SchemaExtractor.format_for_embedding`: one document per table, keyed by
table name, with the body above and the table metadata. -/
def format_for_embedding (tables : List TableD) : List SchemaDoc :=
  tables.map (fun t =>
    ⟨t.tableName, embedBody t, t.tableName, t.tableComment, t.columns.length⟩)

/-! ### Concrete fixtures used by witnesses and counterexamples -/

/-- `SELECT 1`-like statement: no LIMIT, no subqueries, no calls. -/
def sel0 : Stmt := .select none [] [] []

/-- `sel0` after the firewall appends `LIMIT 7`. -/
def sel0L : Stmt := .select (some (.lit "7")) [] [] []

/-- A toy sqlglot parser for witnesses: it parses the raw input to `sel0`
and the firewall's rendered output back to the rewritten statement. -/
def parse0 : String → Except String (List (Option Stmt)) := fun s =>
  if s = "SELECT 1" then .ok [some sel0]
  else if s = "R" then .ok [some sel0L]
  else .error "syntax"

/-- The matching toy serializer. -/
def render0 : Stmt → String := fun _ => "R"

/-- A SELECT invoking the anonymous function `PG_SLEEP`. -/
def selPgSleep : Stmt := .select none [] ["PG_SLEEP"] []

/-- A SELECT with a DELETE as a subquery root. -/
def selDelSub : Stmt := .select none [.delete] [] []

/-- Inner subquery carrying `LIMIT 5`. -/
def innerLimited : Stmt := .select (some (.lit "5")) [] [] []

/-- Top-level SELECT without a LIMIT of its own, but with `innerLimited` as
a subquery (`SELECT a FROM t WHERE x IN (SELECT y FROM u LIMIT 5)`). -/
def outerUnlimited : Stmt := .select none [innerLimited] [] []

/-- Result rows `[["BJ", 3], ["SH", 2]]` with columns `["city", "cnt"]`. -/
def qr0 : QueryResultM :=
  ⟨["city", "cnt"], [[.cstr "BJ", .cint 3], [.cstr "SH", .cint 2]]⟩

/-- A result with columns but no rows. -/
def qrEmpty : QueryResultM := ⟨["c", "v"], []⟩

/-- An option containing a single bar series without `data`. -/
def optBar : List (String × JVal) :=
  [("series", .jarr [.jobj [("type", .jstr "bar")]])]

/-- Scenario option: a category `xAxis` object and one bar series. -/
def optW : List (String × JVal) :=
  [("xAxis", .jobj [("type", .jstr "category")]),
   ("series", .jarr [.jobj [("type", .jstr "bar")]])]

/-- An option with one pie series. -/
def optPie : List (String × JVal) :=
  [("series", .jarr [.jobj [("type", .jstr "pie")]])]

/-- An oracle environment for a fully successful run without viz config. -/
def envOk : RunEnv where
  rateErr := none
  llmEvents := [("thinking_delta", "t"), ("thinking_full", "think"),
                ("sql", "SELECT 1")]
  parseErr := fun _ => none
  validateSql := fun s => .ok s
  execResult := .ok qr0
  vizParse := fun _ => none

/-- The same environment but with the stream also yielding an unknown
`chart_type` value. -/
def envChart : RunEnv where
  rateErr := none
  llmEvents := [("thinking_full", "think"), ("sql", "SELECT 1"),
                ("chart_type", "scatter")]
  parseErr := fun _ => none
  validateSql := fun s => .ok s
  execResult := .ok qr0
  vizParse := fun _ => none

/-- Events whose tags the ordering claim constrains. -/
def isCoreEv (e : EData) : Bool :=
  e.tag == "data" || e.tag == "chart_type" || e.tag == "viz_config" || e.tag == "done"

/-- The stream prefix the consumption loop actually processes: everything
before the first `error` event. -/
def beforeError (l : List (String × String)) : List (String × String) :=
  l.takeWhile (fun e => !(e.1 == "error"))

/-- The content of the last `chart_type` event of a stream prefix,
defaulting to `"bar"`. -/
def lastChartContent (l : List (String × String)) : String :=
  (((l.filter (fun e => e.1 == "chart_type")).map Prod.snd).getLast?).getD "bar"

/-- A toy `json.loads` for witnesses: accepts exactly the body `OK`. -/
def J0 : String → Option (List (String × JVal)) := fun s =>
  if s = "OK" then some [("sql", .jstr "SELECT 1")] else none

/-- The `user_id` column of the C10 fixture. -/
def col0 : ColumnD := ⟨"user_id", "integer", false, "", "用户ID"⟩

/-- Its foreign-key edge `user_id → users.id`. -/
def fk0 : ForeignKeyD := ⟨"user_id", "users", "id"⟩

/-- A one-column, one-edge table descriptor. -/
def tbl0 : TableD := ⟨"orders", "订单表", [col0], [fk0]⟩

/-! ## Theorems -/

/-! ### Firewall helper lemmas -/

lemma ensure_limit_select_shape (m : Nat) (l : Option LimitE) (subs : List Stmt)
    (a f : List String) :
    ∃ l', ensure_limit m (Stmt.select l subs a f) = .select l' subs a f := by
  simp only [ensure_limit]
  repeat' split
  all_goals exact ⟨_, rfl⟩

lemma ensure_limit_isSelect (m : Nat) (s : Stmt) (h : isSelectStmt s = true) :
    isSelectStmt (ensure_limit m s) = true := by
  cases s with
  | select l subs a f =>
    obtain ⟨l', hl⟩ := ensure_limit_select_shape m l subs a f
    rw [hl]; rfl
  | _ => simp [isSelectStmt] at h

lemma isSelect_not_blocked (s : Stmt) (h : isSelectStmt s = true) :
    isBlockedStmt s = false := by
  cases s <;> simp_all [isSelectStmt, isBlockedStmt]

lemma stmt_check_none_select (s : Stmt) (h : stmt_check s = none) :
    isSelectStmt s = true := by
  by_cases hb : isBlockedStmt s = true
  · simp [stmt_check, hb] at h
  · by_cases hs : isSelectStmt s = true
    · exact hs
    · simp [stmt_check, hb, hs] at h

lemma validateStmts_ok_select (m : Nat) :
    ∀ (stmts : List (Option Stmt)) (sels : List Stmt),
      validateStmts m stmts = .ok sels →
      ∀ s ∈ sels, isSelectStmt s = true ∧ isBlockedStmt s = false := by
  intro stmts
  induction stmts with
  | nil =>
    intro sels h s hs
    simp only [validateStmts] at h
    cases h
    simp at hs
  | cons o rest ih =>
    intro sels h s hs
    cases o with
    | none =>
      exact ih sels h s hs
    | some st =>
      simp only [validateStmts] at h
      cases hc : stmt_check st with
      | some e => rw [hc] at h; cases h
      | none =>
        rw [hc] at h
        cases hr : validateStmts m rest with
        | error e => rw [hr] at h; cases h
        | ok l =>
          rw [hr] at h
          cases h
          rcases List.mem_cons.mp hs with h1 | h2
          · subst h1
            have hsel := stmt_check_none_select st hc
            have := ensure_limit_isSelect m st hsel
            exact ⟨this, isSelect_not_blocked _ this⟩
          · exact ih l hr s h2

lemma validateSels_ok_select
    (parse : String → Except String (List (Option Stmt)))
    (maxRows : Nat) (sql : String) (sels : List Stmt)
    (h : validateSels parse maxRows sql = .ok sels) :
    ∀ s ∈ sels, isSelectStmt s = true ∧ isBlockedStmt s = false := by
  simp only [validateSels] at h
  split at h
  · cases h
  · split at h
    · cases h
    · split at h
      · cases h
      · exact validateStmts_ok_select maxRows _ sels h

/-- C1.  For every SQL input on which the firewall succeeds, the returned
string is the "; "-join of the re-serialized safe statements, and — under
the round-trip behaviour of the external sqlglot serializer/parser on that
output — it parses back to a sequence consisting only of SELECT statements,
none of which is a mutating statement (INSERT, UPDATE, DELETE, DROP, CREATE,
ALTER, or an opaque command).  Failures are typed `FwError` values by
construction of `validate`, so the firewall either returns a SELECT-only
string or raises a typed error. -/
theorem firewall_select_only
    (parse : String → Except String (List (Option Stmt)))
    (render : Stmt → String) (maxRows : Nat) (sql : String)
    (sels : List Stmt)
    (hsels : validateSels parse maxRows sql = .ok sels)
    (hrt : parse (String.intercalate "; " (sels.map render)) = .ok (sels.map some)) :
    validate parse render maxRows sql = .ok (String.intercalate "; " (sels.map render)) ∧
    ∃ l, parse (String.intercalate "; " (sels.map render)) = .ok l ∧
      ∀ so ∈ l, ∃ s, so = some s ∧ isSelectStmt s = true ∧ isBlockedStmt s = false := by
  refine ⟨by simp [validate, hsels], sels.map some, hrt, ?_⟩
  intro so hso
  rcases List.mem_map.mp hso with ⟨s, hs, rfl⟩
  have := validateSels_ok_select parse maxRows sql sels hsels s hs
  exact ⟨s, rfl, this.1, this.2⟩

/-- Witness for C1 at a concrete input and a concrete parser/serializer
pair satisfying the round-trip hypothesis. -/
theorem firewall_select_only_witness :
    validate parse0 render0 7 "SELECT 1" = .ok "R" ∧
    ∃ l, parse0 "R" = .ok l ∧
      ∀ so ∈ l, ∃ s, so = some s ∧ isSelectStmt s = true ∧ isBlockedStmt s = false := by
  have h := firewall_select_only parse0 render0 7 "SELECT 1" [sel0L] (by rfl) (by rfl)
  simpa using h

/-- C3 (code bug).  `_ensure_limit` looks up the first LIMIT anywhere in the
tree (`statement.find(exp.Limit)`), not the statement's own LIMIT clause.
On a top-level SELECT without a LIMIT of its own whose subquery carries
`LIMIT 5` (≤ `max_rows = 1000`), the firewall accepts the statement
*unchanged*: no top-level `LIMIT 1000` is appended, contradicting the claim
that a SELECT without LIMIT gets `LIMIT max_rows`.  The first conjunct
evaluates the firewall at the failing input; the second exhibits that the
accepted statement still has no LIMIT clause of its own. -/
theorem ensure_limit_nested_limit_bug :
    validateStmts 1000 [some outerUnlimited] = .ok [outerUnlimited] ∧
    outerUnlimited = .select none [innerLimited] [] [] := by
  exact ⟨rfl, rfl⟩

/-! ### C4 helper lemmas -/

lemma validateStmts_cons_some (m : Nat) (s : Stmt) (rest : List (Option Stmt)) :
    validateStmts m (some s :: rest) =
      match stmt_check s with
      | some e => .error e
      | none =>
        match validateStmts m rest with
        | .error e => .error e
        | .ok l => .ok (ensure_limit m s :: l) := rfl

lemma validateStmts_error_iff (m : Nat) :
    ∀ (stmts : List (Option Stmt)) (e : FwError),
      validateStmts m stmts = .error e ↔
        (stmts.filterMap id).findSome? stmt_check = some e := by
  intro stmts
  induction stmts with
  | nil => intro e; simp [validateStmts]
  | cons o rest ih =>
    intro e
    cases o with
    | none => simpa [validateStmts] using ih e
    | some s =>
      have hfm : ((some s :: rest).filterMap id) = s :: rest.filterMap id := by simp
      rw [validateStmts_cons_some, hfm, List.findSome?_cons]
      cases hc : stmt_check s with
      | some e' =>
        constructor
        · intro h; cases h; rfl
        · intro h; cases h; rfl
      | none =>
        cases hr : validateStmts m rest with
        | error e'' =>
          constructor
          · intro h; cases h; exact (ih e).mp hr
          · intro h
            have h2 := (ih e).mpr h
            rw [hr] at h2; cases h2; rfl
        | ok l =>
          constructor
          · intro h; cases h
          · intro h
            have h2 := (ih e).mpr h
            rw [hr] at h2; cases h2

lemma firstBlockedName_none_iff (names : List String) :
    firstBlockedName names = none ↔
      ∀ n ∈ names, ¬ (blockedFunctions.contains (pyLower n) = true) := by
  simp only [firstBlockedName]
  cases hf : names.find? (fun n => blockedFunctions.contains (pyLower n)) with
  | some n =>
    simp only []
    constructor
    · intro h; cases h
    · intro h
      have h1 := List.find?_some hf
      have h2 := List.mem_of_find?_eq_some hf
      exact absurd (by simpa using h1) (h n h2)
  | none =>
    simp only []
    constructor
    · intro _ n hn
      have := List.find?_eq_none.mp hf n hn
      simpa using this
    · intro _; trivial

lemma firstBlockedName_some_blocked (names : List String) (fn : String)
    (h : firstBlockedName names = some fn) :
    blockedFunctions.contains fn = true := by
  simp only [firstBlockedName] at h
  cases hf : names.find? (fun n => blockedFunctions.contains (pyLower n)) with
  | none => rw [hf] at h; cases h
  | some n =>
    rw [hf] at h
    cases h
    have h1 := List.find?_some hf
    simpa using h1

/-- C4.  The firewall raises exactly the typed error its policy assigns:
`EMPTY_SQL` on blank input; for statement lists, the raised error is the
per-statement check of the first offending (non-`None`) statement, where
that check yields `BLOCKED_STATEMENT` for the mutating categories,
`NON_SELECT` for any other non-SELECT, `BLOCKED_SUBQUERY` when a nested
subquery's root is mutating, `BLOCKED_FUNCTION` (with a blocklisted,
lower-cased name) when a call's normalized name is blocklisted, and nothing
otherwise. -/
theorem firewall_error_codes
    (parse : String → Except String (List (Option Stmt)))
    (render : Stmt → String) (maxRows : Nat) :
    (∀ sql, pyStrip sql = "" → validate parse render maxRows sql = .error .emptySql) ∧
    (∀ stmts e, validateStmts maxRows stmts = .error e ↔
        (stmts.filterMap id).findSome? stmt_check = some e) ∧
    (∀ s, isBlockedStmt s = true →
        stmt_check s = some (.blockedStatement (stmtTypeName s))) ∧
    (∀ n, stmt_check (.other n) = some (.nonSelect n)) ∧
    (∀ s, isSelectStmt s = true → hasBlockedSubquery s = true →
        stmt_check s = some .blockedSubquery) ∧
    (∀ s, isSelectStmt s = true → hasBlockedSubquery s = false →
        (∃ n ∈ allAnon s ++ allFuncs s, blockedFunctions.contains (pyLower n) = true) →
        ∃ fn, stmt_check s = some (.blockedFunction fn) ∧
          blockedFunctions.contains fn = true) ∧
    (∀ s, isSelectStmt s = true → hasBlockedSubquery s = false →
        (∀ n ∈ allAnon s ++ allFuncs s, ¬ (blockedFunctions.contains (pyLower n) = true)) →
        stmt_check s = none) := by
  refine ⟨?_, validateStmts_error_iff maxRows, ?_, ?_, ?_, ?_, ?_⟩
  · intro sql h
    simp [validate, validateSels, h]
  · intro s hb
    simp [stmt_check, hb]
  · intro n
    simp [stmt_check, isBlockedStmt, isSelectStmt, stmtTypeName]
  · intro s hs hsub
    have hb := isSelect_not_blocked s hs
    simp [stmt_check, hb, hs, check_dangerous_nodes, hsub]
  · intro s hs hsub hex
    have hb := isSelect_not_blocked s hs
    simp only [stmt_check, hb, Bool.false_eq_true, if_false, hs, if_true,
      check_dangerous_nodes, hsub]
    rcases hex with ⟨n, hn, hblk⟩
    rcases List.mem_append.mp hn with hna | hnf
    · cases ha : firstBlockedName (allAnon s) with
      | some fn => exact ⟨fn, rfl, firstBlockedName_some_blocked _ _ ha⟩
      | none =>
        exact absurd hblk ((firstBlockedName_none_iff _).mp ha n hna)
    · cases ha : firstBlockedName (allAnon s) with
      | some fn => exact ⟨fn, rfl, firstBlockedName_some_blocked _ _ ha⟩
      | none =>
        cases hf : firstBlockedName (allFuncs s) with
        | some fn => exact ⟨fn, rfl, firstBlockedName_some_blocked _ _ hf⟩
        | none =>
          exact absurd hblk ((firstBlockedName_none_iff _).mp hf n hnf)
  · intro s hs hsub hnone
    have hb := isSelect_not_blocked s hs
    have ha : firstBlockedName (allAnon s) = none :=
      (firstBlockedName_none_iff _).mpr
        (fun n hn => hnone n (List.mem_append.mpr (.inl hn)))
    have hf : firstBlockedName (allFuncs s) = none :=
      (firstBlockedName_none_iff _).mpr
        (fun n hn => hnone n (List.mem_append.mpr (.inr hn)))
    simp [stmt_check, hb, hs, check_dangerous_nodes, hsub, ha, hf]

/-- Witness for C4: each clause of the policy instantiated at a concrete
rejected (or accepted) input. -/
theorem firewall_error_codes_witness :
    validate parse0 render0 7 " " = .error .emptySql ∧
    validateStmts 7 [some .insert] = .error (.blockedStatement "Insert") ∧
    stmt_check (.other "Union") = some (.nonSelect "Union") ∧
    stmt_check selDelSub = some .blockedSubquery ∧
    (∃ fn, stmt_check selPgSleep = some (.blockedFunction fn) ∧
      blockedFunctions.contains fn = true) ∧
    stmt_check sel0 = none := by
  obtain ⟨h1, h2, h3, h4, h5, h6, h7⟩ := firewall_error_codes parse0 render0 7
  refine ⟨h1 " " (by rfl), (h2 [some .insert] _).mpr (by rfl), h4 "Union", ?_, ?_, ?_⟩
  · exact h5 selDelSub rfl rfl
  · exact h6 selPgSleep rfl rfl
      ⟨"PG_SLEEP", by simp [selPgSleep, allAnon, allFuncs, allAnonList, allFuncsList], by rfl⟩
  · exact h7 sel0 rfl rfl (by simp [sel0, allAnon, allFuncs, allAnonList, allFuncsList])

/-! ### Limiter helper lemmas -/

lemma trimWindow_trimWindow (u t : ℚ) (h : t ≤ u) (l : List ℚ) :
    trimWindow u (trimWindow t l) = trimWindow u l := by
  simp only [trimWindow, List.filter_filter]
  apply List.filter_congr
  intro x _
  by_cases hx : u - 60 < x
  · have ht : t - 60 < x := lt_of_le_of_lt (by linarith) hx
    simp [hx, ht]
  · simp [hx]

lemma trimWindow_append (u : ℚ) (a b : List ℚ) :
    trimWindow u (a ++ b) = trimWindow u a ++ trimWindow u b := by
  simp [trimWindow, List.filter_append]

lemma runLimiter_append (m : Nat) (calls : List (ℚ × String)) (p : ℚ × String) :
    runLimiter m (calls ++ [p]) = stepCall m (runLimiter m calls) p := by
  simp [runLimiter, List.foldl_append]

lemma updMap_same (st : String → List ℚ) (cid : String) (v : List ℚ) :
    updMap st cid v cid = v := by simp [updMap]

lemma updMap_other (st : String → List ℚ) (cid c : String) (v : List ℚ)
    (h : c ≠ cid) : updMap st cid v c = st c := by simp [updMap, h]

lemma admittedTimes_append_same (c : String) (adm : List (ℚ × String)) (t : ℚ) :
    admittedTimes c (adm ++ [(t, c)]) = admittedTimes c adm ++ [t] := by
  simp [admittedTimes, List.filter_append]

lemma admittedTimes_append_other (c d : String) (adm : List (ℚ × String)) (t : ℚ)
    (h : d ≠ c) : admittedTimes c (adm ++ [(t, d)]) = admittedTimes c adm := by
  simp [admittedTimes, List.filter_append, h]

lemma runLimiter_char (m : Nat) (calls : List (ℚ × String)) :
    ∀ (c : String) (u : ℚ),
      List.Sorted (· ≤ ·) (calls.map Prod.fst) →
      (∀ x ∈ calls.map Prod.fst, x ≤ u) →
      trimWindow u ((runLimiter m calls).1 c) =
        trimWindow u (admittedTimes c (runLimiter m calls).2) := by
  induction calls using List.reverseRecOn with
  | nil =>
    intro c u _ _
    simp [runLimiter, freshLimiterMap, admittedTimes, trimWindow]
  | append_singleton cs p ih =>
    obtain ⟨t, d⟩ := p
    intro c u hs hu
    rw [List.map_append] at hs hu
    rw [List.Sorted, List.pairwise_append] at hs
    have hs' : List.Sorted (· ≤ ·) (cs.map Prod.fst) := hs.1
    have hle : ∀ x ∈ cs.map Prod.fst, x ≤ t := by
      intro x hx
      exact hs.2.2 x hx t (by simp)
    have hup : t ≤ u := hu t (by simp)
    have hucs : ∀ x ∈ cs.map Prod.fst, x ≤ u :=
      fun x hx => hu x (List.mem_append.mpr (.inl hx))
    rw [runLimiter_append]
    have ihu := ih c u hs' hucs
    simp only [stepCall, check_rate_limit]
    by_cases hd : d = c
    · subst hd
      by_cases hrej :
          m ≤ (trimWindow t ((runLimiter m cs).1 d)).length
      · simp only [hrej, if_true, Option.isNone_some, Bool.false_eq_true, if_false]
        rw [updMap_same, trimWindow_trimWindow u t hup, ihu]
      · simp only [hrej, if_false, Option.isNone_none, if_true]
        rw [updMap_same, admittedTimes_append_same, trimWindow_append,
          trimWindow_append, trimWindow_trimWindow u t hup, ihu]
    · have hd' : c ≠ d := fun h => hd h.symm
      by_cases hrej :
          m ≤ (trimWindow t ((runLimiter m cs).1 d)).length
      · simp only [hrej, if_true, Option.isNone_some, Bool.false_eq_true, if_false]
        rw [updMap_other _ _ _ _ hd']
        exact ihu
      · simp only [hrej, if_false, Option.isNone_none, if_true]
        rw [updMap_other _ _ _ _ hd', admittedTimes_append_other c d _ t hd]
        exact ihu

lemma runLimiter_bound (m : Nat) (calls : List (ℚ × String)) :
    ∀ (c : String) (T : ℚ),
      List.Sorted (· ≤ ·) (calls.map Prod.fst) →
      ((runLimiter m calls).2.countP
        (fun p => decide (p.2 = c) && decide (T < p.1) && decide (p.1 ≤ T + 60))) ≤ m := by
  induction calls using List.reverseRecOn with
  | nil => intro c T _; simp [runLimiter]
  | append_singleton cs p ih =>
    obtain ⟨t, d⟩ := p
    intro c T hs
    rw [List.map_append] at hs
    rw [List.Sorted, List.pairwise_append] at hs
    have hs' : List.Sorted (· ≤ ·) (cs.map Prod.fst) := hs.1
    have hle : ∀ x ∈ cs.map Prod.fst, x ≤ t := fun x hx => hs.2.2 x hx t (by simp)
    rw [runLimiter_append]
    simp only [stepCall, check_rate_limit]
    by_cases hrej : m ≤ (trimWindow t ((runLimiter m cs).1 d)).length
    · simp only [hrej, if_true, Option.isNone_some, Bool.false_eq_true, if_false]
      exact ih c T hs'
    · simp only [hrej, if_false, Option.isNone_none, if_true]
      rw [List.countP_append]
      by_cases hpred :
          (decide (((t, d) : ℚ × String).2 = c) && decide (T < ((t, d) : ℚ × String).1)
            && decide (((t, d) : ℚ × String).1 ≤ T + 60)) = true
      · have hsingle : List.countP
            (fun p => decide (p.2 = c) && decide (T < p.1) && decide (p.1 ≤ T + 60))
            [(t, d)] = 1 := by
          rw [List.countP_cons, List.countP_nil, if_pos hpred]
        rw [hsingle]
        simp only [Bool.and_eq_true, decide_eq_true_eq] at hpred
        obtain ⟨⟨hdc, hTt⟩, htT⟩ := hpred
        subst hdc
        have hlen : (trimWindow t ((runLimiter m cs).1 d)).length < m := not_le.mp hrej
        have hchar := runLimiter_char m cs d t hs' hle
        have hcount :
            (runLimiter m cs).2.countP
              (fun p => decide (p.2 = d) && decide (T < p.1) && decide (p.1 ≤ T + 60)) ≤
            (trimWindow t (admittedTimes d (runLimiter m cs).2)).length := by
          have h1 : trimWindow t (admittedTimes d (runLimiter m cs).2) =
              List.filter (fun x => decide (t - 60 < x))
                (List.map Prod.fst
                  (List.filter (fun p => decide (p.2 = d)) (runLimiter m cs).2)) := rfl
          rw [h1, ← List.countP_eq_length_filter, List.countP_map, List.countP_filter]
          apply List.countP_mono_left
          intro p _ hp
          simp only [Bool.and_eq_true, decide_eq_true_eq] at hp
          obtain ⟨⟨hpc, hpT⟩, hpt⟩ := hp
          simp only [Function.comp, Bool.and_eq_true, decide_eq_true_eq]
          exact ⟨by linarith, hpc⟩
        rw [← hchar] at hcount
        omega
      · have hsingle : List.countP
            (fun p => decide (p.2 = c) && decide (T < p.1) && decide (p.1 ≤ T + 60))
            [(t, d)] = 0 := by
          rw [List.countP_cons, List.countP_nil, if_neg hpred]
        rw [hsingle]
        have := ih c T hs'
        omega

/-- C5.  `check_rate_limit` trims the client's expired entries on every
check; when the retained count is at or above `max_requests_per_minute` it
raises `RATE_LIMIT` and appends no timestamp, otherwise it appends the
current timestamp — and consequently, for every (chronologically ordered)
sequence of calls against one limiter instance, at most
`max_requests_per_minute` calls from one client id are admitted within any
60-second sliding window `(T, T + 60]`. -/
theorem limiter_sliding_window (m : Nat) :
    (∀ (now : ℚ) (cid : String) (st : String → List ℚ),
      (m ≤ (trimWindow now (st cid)).length →
        check_rate_limit m now cid st =
          (updMap st cid (trimWindow now (st cid)), some ("RATE_LIMIT", "查询频率超限"))) ∧
      ((trimWindow now (st cid)).length < m →
        check_rate_limit m now cid st =
          (updMap st cid (trimWindow now (st cid) ++ [now]), none))) ∧
    (∀ (calls : List (ℚ × String)) (c : String) (T : ℚ),
      List.Sorted (· ≤ ·) (calls.map Prod.fst) →
      ((runLimiter m calls).2.countP
        (fun p => decide (p.2 = c) && decide (T < p.1) && decide (p.1 ≤ T + 60))) ≤ m) := by
  constructor
  · intro now cid st
    constructor
    · intro h
      simp [check_rate_limit, h]
    · intro h
      have hn : ¬ m ≤ (trimWindow now (st cid)).length := not_le.mpr h
      simp [check_rate_limit, hn]
  · exact runLimiter_bound m

/-- Witness for C5: a full client is rejected, and a three-call sequence
against a cap of 2 admits at most 2 calls in the window `(0, 60]`. -/
theorem limiter_sliding_window_witness :
    (check_rate_limit 2 (30 : ℚ) "a" (fun _ => [(0 : ℚ), (10 : ℚ)])).2 =
      some ("RATE_LIMIT", "查询频率超限") ∧
    ((runLimiter 2 [((0 : ℚ), "a"), ((1 : ℚ), "a"), ((2 : ℚ), "a")]).2.countP
      (fun p => decide (p.2 = "a") && decide ((0 : ℚ) < p.1)
        && decide (p.1 ≤ (0 : ℚ) + 60))) ≤ 2 := by
  constructor
  · rw [((limiter_sliding_window 2).1 30 "a" (fun _ => [(0 : ℚ), (10 : ℚ)])).1
      (by norm_num [trimWindow, List.filter])]
  · exact (limiter_sliding_window 2).2 [((0 : ℚ), "a"), ((1 : ℚ), "a"), ((2 : ℚ), "a")]
      "a" 0 (by norm_num [List.sorted_cons])

/-- C2 (code bug).  `_sse_event_generator` calls `_build_state_machine()` on
every request, and `_build_state_machine` constructs a brand-new
`QueryLimiter`, whose `__init__` creates a fresh, empty
`_request_timestamps` map — so the rate map is *not* process-wide.  First
conjunct: the first run's admission at time 0 appends its timestamp to its
own limiter's map.  Second/third conjuncts: a second run 30 s later starts
again from `_build_state_machine`'s fresh map, so its admission observes an
empty retained list — not the first run's timestamp — and afterwards holds
only its own.  Fourth conjunct: on a process-wide shared map, as the claim
requires, the second admission would observe and retain the first run's
timestamp.  Rate counting therefore never accumulates across requests. -/
theorem rate_map_not_process_wide :
    (check_rate_limit 30 0 "default" build_state_machine_limiterMap).1 "default" = [(0 : ℚ)] ∧
    trimWindow 30 (build_state_machine_limiterMap "default") = [] ∧
    (check_rate_limit 30 30 "default" build_state_machine_limiterMap).1 "default" = [(30 : ℚ)] ∧
    (check_rate_limit 30 30 "default"
      ((check_rate_limit 30 0 "default" build_state_machine_limiterMap).1)).1 "default" =
      [(0 : ℚ), (30 : ℚ)] := by
  refine ⟨?_, ?_, ?_, ?_⟩ <;>
    norm_num [check_rate_limit, trimWindow, build_state_machine_limiterMap,
      freshLimiterMap, updMap, List.filter]

/-! ### Schema-extractor helper lemmas -/

lemma toList_append (a b : String) : (a ++ b).toList = a.toList ++ b.toList := rfl

lemma infix_append_left {l s : List Char} (t : List Char)
    (h : s <:+: l) : s <:+: l ++ t :=
  h.trans (List.prefix_append l t).isInfix

lemma infix_append_right {l s : List Char} (t : List Char)
    (h : s <:+: l) : s <:+: t ++ l :=
  h.trans (List.suffix_append t l).isInfix

lemma strJoin_part (sep : String) (l : List String) (x : String) (h : x ∈ l) :
    x.toList <:+: (strJoin sep l).toList := by
  induction l with
  | nil => cases h
  | cons a rest ih =>
    cases rest with
    | nil =>
      rcases List.mem_singleton.mp h with rfl
      exact List.infix_refl _
    | cons b rest2 =>
      rcases List.mem_cons.mp h with rfl | hmem
      · show x.toList <:+: (x ++ sep ++ strJoin sep (b :: rest2)).toList
        rw [toList_append, toList_append]
        exact infix_append_left _ (infix_append_left _ (List.infix_refl _))
      · show x.toList <:+: (a ++ sep ++ strJoin sep (b :: rest2)).toList
        rw [toList_append]
        exact infix_append_right _ (ih hmem)

lemma embedBody_no_fk (t : TableD) (h : t.foreignKeys.isEmpty = true) :
    embedBody t =
      "表 " ++ t.tableName ++ "（" ++ t.tableComment ++ "）包含以下字段：\n"
        ++ strJoin "\n" (t.columns.map
          (fun c => c.name ++ "(" ++ c.dataType ++ "): " ++ c.comment)) := by
  simp [embedBody, h]

lemma embedBody_fk (t : TableD) (h : t.foreignKeys.isEmpty = false) :
    embedBody t =
      "表 " ++ t.tableName ++ "（" ++ t.tableComment ++ "）包含以下字段：\n"
        ++ strJoin "\n" (t.columns.map
          (fun c => c.name ++ "(" ++ c.dataType ++ "): " ++ c.comment))
        ++ "\n外键关系：" ++ strJoin "；"
          (t.foreignKeys.map
            (fun fk => fk.column ++ " 关联 " ++ fk.refTable ++ "." ++ fk.refColumn)) := by
  simp [embedBody, h]

lemma embedBody_infix_of_base (t : TableD) (s : List Char)
    (h : s <:+:
      ("表 " ++ t.tableName ++ "（" ++ t.tableComment ++ "）包含以下字段：\n"
        ++ strJoin "\n" (t.columns.map
          (fun c => c.name ++ "(" ++ c.dataType ++ "): " ++ c.comment))).toList) :
    s <:+: (embedBody t).toList := by
  cases hfk : t.foreignKeys.isEmpty with
  | true => rw [embedBody_no_fk t hfk]; exact h
  | false =>
    rw [embedBody_fk t hfk, toList_append, toList_append]
    exact infix_append_left _ (infix_append_left _ h)

set_option maxRecDepth 100000 in
/-- C10 (counterexample).  The claim reads the rendering
`col → ref_table.ref_column` literally, but `format_for_embedding` joins
each foreign-key edge with `关联` (the `→` rendering belongs to
`format_for_prompt`): the document body for a table with the foreign key
(user_id, users, id) does not contain the substring `user_id → users.id`,
though it does contain `user_id 关联 users.id`. -/
theorem format_for_embedding_no_arrow :
    ¬ ("user_id → users.id".toList <:+:
        (((format_for_embedding [tbl0]).map SchemaDoc.text).headD "").toList) ∧
    ("user_id 关联 users.id".toList <:+:
        (((format_for_embedding [tbl0]).map SchemaDoc.text).headD "").toList) := by
  constructor
  · decide
  · decide

/-- C10 (amended).  Every table's embedding document carries the table name
as its id, and its body includes the table name, the table comment, every
column rendered as `name(type): comment`, and every foreign-key edge
rendered as `col 关联 ref_table.ref_column`. -/
theorem format_for_embedding_contents (tables : List TableD) (t : TableD)
    (ht : t ∈ tables) :
    ∃ doc ∈ format_for_embedding tables,
      doc.id = t.tableName ∧
      t.tableName.toList <:+: doc.text.toList ∧
      t.tableComment.toList <:+: doc.text.toList ∧
      (∀ c ∈ t.columns,
        (c.name ++ "(" ++ c.dataType ++ "): " ++ c.comment).toList <:+: doc.text.toList) ∧
      (∀ fk ∈ t.foreignKeys,
        (fk.column ++ " 关联 " ++ fk.refTable ++ "." ++ fk.refColumn).toList
          <:+: doc.text.toList) := by
  refine ⟨_, List.mem_map_of_mem _ ht, rfl, ?_, ?_, ?_, ?_⟩
  · -- table name
    apply embedBody_infix_of_base
    simp only [toList_append]
    exact infix_append_left _ (infix_append_left _ (infix_append_left _
      (infix_append_left _ (infix_append_right _ (List.infix_refl _)))))
  · -- table comment
    apply embedBody_infix_of_base
    simp only [toList_append]
    exact infix_append_left _ (infix_append_left _
      (infix_append_right _ (List.infix_refl _)))
  · -- columns
    intro c hc
    apply embedBody_infix_of_base
    simp only [toList_append]
    exact infix_append_right _
      (strJoin_part "\n" _ _ (List.mem_map_of_mem _ hc))
  · -- foreign keys
    intro fk hfk
    have hne : t.foreignKeys.isEmpty = false := by
      cases hfks : t.foreignKeys with
      | nil => rw [hfks] at hfk; cases hfk
      | cons a l => simp [hfks]
    rw [show SchemaDoc.text ((fun t : TableD =>
      (⟨t.tableName, embedBody t, t.tableName, t.tableComment,
        t.columns.length⟩ : SchemaDoc)) t) = embedBody t from rfl]
    rw [embedBody_fk t hne, toList_append]
    exact infix_append_right _
      (strJoin_part "；" _ _ (List.mem_map_of_mem _ hfk))

/-- Witness for C10's amended theorem at a concrete table descriptor. -/
theorem format_for_embedding_contents_witness :
    ∃ doc ∈ format_for_embedding [tbl0],
      doc.id = "orders" ∧
      "orders".toList <:+: doc.text.toList ∧
      "订单表".toList <:+: doc.text.toList ∧
      (∀ c ∈ tbl0.columns,
        (c.name ++ "(" ++ c.dataType ++ "): " ++ c.comment).toList <:+: doc.text.toList) ∧
      (∀ fk ∈ tbl0.foreignKeys,
        (fk.column ++ " 关联 " ++ fk.refTable ++ "." ++ fk.refColumn).toList
          <:+: doc.text.toList) := by
  have h := format_for_embedding_contents [tbl0] tbl0 (by simp)
  rcases h with ⟨doc, hmem, hid, hname, hcomment, hcols, hfks⟩
  exact ⟨doc, hmem, hid, hname, hcomment, hcols, hfks⟩

/-- C7.  `_parse_response` applies exactly three strategies in order with
first success winning — (1) the full body, (2) the captured group of the
first fenced code block (fence optionally declaring `json`), (3) the
substring between the first `{` and the last `}` — and when all three fail,
`generate_stream` emits a single `error` event whose payload's `code` is
`PARSE_FAILED`. -/
theorem parse_response_policy
    (J : String → Option (List (String × JVal))) (content : String) :
    (∀ v, J content = some v → parse_response J content = some v) ∧
    (∀ f v, J content = none → extract_fenced content = some f → J f = some v →
        parse_response J content = some v) ∧
    (∀ b v, J content = none → (extract_fenced content).bind J = none →
        braces_slice content = some b → J b = some v →
        parse_response J content = some v) ∧
    (J content = none → (extract_fenced content).bind J = none →
        (braces_slice content).bind J = none →
        parse_response J content = none ∧
        generate_stream_tail (parse_response J content) =
          [("error", .jobj [("code", .jstr "PARSE_FAILED"),
                            ("message", .jstr "模型输出格式异常，无法解析为结构化 JSON")])]) := by
  refine ⟨?_, ?_, ?_, ?_⟩
  · intro v h
    simp [parse_response, h]
  · intro f v h1 h2 h3
    simp [parse_response, h1, h2, h3]
  · intro b v h1 h2 h3 h4
    simp only [parse_response, h1, h2, h3, Option.bind_some]
    exact h4
  · intro h1 h2 h3
    have hp : parse_response J content = none := by
      simp [parse_response, h1, h2, h3]
    exact ⟨hp, by rw [hp]; rfl⟩

/-- Witness for C7: each strategy and the failure path at concrete inputs. -/
theorem parse_response_policy_witness :
    parse_response J0 "OK" = some [("sql", .jstr "SELECT 1")] ∧
    parse_response J0 "x ```json\nOK\n``` y" = some [("sql", .jstr "SELECT 1")] ∧
    parse_response (fun s => if s = "\x7bOK\x7d" then some [] else none)
      "zz \x7bOK\x7d tt" = some [] ∧
    (parse_response J0 "nope" = none ∧
      generate_stream_tail (parse_response J0 "nope") =
        [("error", .jobj [("code", .jstr "PARSE_FAILED"),
                          ("message", .jstr "模型输出格式异常，无法解析为结构化 JSON")])]) := by
  refine ⟨?_, ?_, ?_, ?_⟩
  · exact (parse_response_policy J0 "OK").1 _ (by rfl)
  · exact (parse_response_policy J0 "x ```json\nOK\n``` y").2.1 "OK" _ (by rfl) (by rfl) (by rfl)
  · exact (parse_response_policy _ "zz \x7bOK\x7d tt").2.2.1 "\x7bOK\x7d" _
      (by rfl) (by rfl) (by rfl) (by rfl)
  · exact (parse_response_policy J0 "nope").2.2.2 (by rfl) (by rfl) (by rfl)

/-! ### ECharts-filling helper lemmas -/

lemma jGet_jSet_same (o : List (String × JVal)) (k : String) (v : JVal) :
    jGet (jSet o k v) k = some v := by
  induction o with
  | nil => simp [jSet, jGet]
  | cons p rest ih =>
    by_cases hp : p.1 = k
    · simp [jSet, jGet, hp]
    · simp only [jSet, hp, if_false]
      simpa [jGet, List.find?_cons, hp] using ih

lemma jGet_jSet_ne (o : List (String × JVal)) (k k' : String) (v : JVal)
    (h : k' ≠ k) : jGet (jSet o k v) k' = jGet o k' := by
  induction o with
  | nil => simp [jSet, jGet, List.find?_cons, List.find?_nil, Ne.symm h]
  | cons p rest ih =>
    by_cases hp : p.1 = k
    · subst hp
      simp [jSet, jGet, List.find?_cons, Ne.symm h]
    · by_cases hp' : p.1 = k'
      · simp [jSet, jGet, hp, List.find?_cons, hp', h]
      · simp only [jSet, hp, if_false]
        simp only [jGet, List.find?_cons] at ih ⊢
        simpa [hp'] using ih

lemma fillXAxis_series_eq (cats : List String) (opt o1 : List (String × JVal))
    (h : fillXAxis cats opt = some o1) :
    jGet o1 "series" = jGet opt "series" := by
  simp only [fillXAxis] at h
  split at h
  · cases h; rfl
  · cases h; exact jGet_jSet_ne _ _ _ _ (by simp)
  · cases h; rfl
  · split at h
    · cases h; exact jGet_jSet_ne _ _ _ _ (by simp)
    · cases h
  · cases h; rfl

lemma fillSeriesPass_xAxis_eq (ed : EchartsData) (o o2 : List (String × JVal))
    (h : fillSeriesPass ed o = some o2) :
    jGet o2 "xAxis" = jGet o "xAxis" := by
  simp only [fillSeriesPass] at h
  split at h
  · cases h; rfl
  · split at h
    · split at h
      · split at h
        · cases h; exact jGet_jSet_ne _ _ _ _ (by simp)
        · cases h
      · cases h; rfl
      · cases h; rfl
      · cases h
    · cases h; rfl

lemma piePass_xAxis_eq (ed : EchartsData) (o res : List (String × JVal))
    (h : piePass ed o = some res) :
    jGet res "xAxis" = jGet o "xAxis" := by
  simp only [piePass] at h
  split at h
  · cases h; rfl
  · split at h
    · split at h
      · cases h; exact jGet_jSet_ne _ _ _ _ (by simp)
      · cases h
    · cases h; rfl
    · cases h; rfl
    · cases h

lemma fillXAxis_obj (cats : List String) (opt x : List (String × JVal))
    (h : jGet opt "xAxis" = some (.jobj x)) :
    fillXAxis cats opt =
      some (jSet opt "xAxis" (.jobj (jSet x "data" (.jarr (cats.map .jstr))))) := by
  simp [fillXAxis, h]

lemma fillXAxis_list (cats : List String) (opt x0 : List (String × JVal))
    (tl : List JVal)
    (h : jGet opt "xAxis" = some (.jarr (.jobj x0 :: tl))) :
    fillXAxis cats opt =
      some (jSet opt "xAxis"
        (.jarr (.jobj (jSet x0 "data" (.jarr (cats.map .jstr))) :: tl))) := by
  simp [fillXAxis, h]

lemma fillSeriesPass_arr (ed : EchartsData) (o : List (String × JVal))
    (items : List JVal) (hser : jGet o "series" = some (.jarr items))
    (ht : seriesTruthy ed = true) :
    fillSeriesPass ed o =
      (fillSeriesLoop (ed.series.getD []) 0 items).map
        (fun items' => jSet o "series" (.jarr items')) := by
  simp only [fillSeriesPass, hser, ht, if_true]
  cases hl : fillSeriesLoop (ed.series.getD []) 0 items <;> simp [hl]

lemma piePass_arr (ed : EchartsData) (o : List (String × JVal))
    (items : List JVal) (hser : jGet o "series" = some (.jarr items)) :
    piePass ed o =
      (pieLoop ed items).map (fun its => jSet o "series" (.jarr its)) := by
  simp only [piePass, hser]
  cases hl : pieLoop ed items <;> simp [hl]

lemma fillSeriesLoop_spec (sv : List (String × List Cell)) :
    ∀ (items : List JVal) (i : Nat) (res : List JVal),
      fillSeriesLoop sv i items = some res →
      res.length = items.length ∧
      (∀ j o entry, items[j]? = some (.jobj o) → sv[i + j]? = some entry →
        res[j]? = some (.jobj (seriesFillItem entry o))) ∧
      (∀ j, sv.length ≤ i + j → res[j]? = items[j]?) := by
  intro items
  induction items with
  | nil =>
    intro i res h
    simp only [fillSeriesLoop] at h
    cases h
    simp
  | cons item rest ih =>
    intro i res h
    simp only [fillSeriesLoop] at h
    by_cases hi : i < sv.length
    · rw [dif_pos hi] at h
      cases item with
      | jobj o =>
        cases hr : fillSeriesLoop sv (i + 1) rest with
        | none => rw [hr] at h; cases h
        | some l =>
          rw [hr] at h
          cases h
          obtain ⟨hlen, hset, hskip⟩ := ih (i + 1) l hr
          refine ⟨by simp [hlen], ?_, ?_⟩
          · intro j o' entry hj hsv
            cases j with
            | zero =>
              simp only [List.getElem?_cons_zero, Option.some.injEq, JVal.jobj.injEq] at hj
              subst hj
              simp only [Nat.add_zero] at hsv
              have : sv[i] = entry := by
                have hh := List.getElem?_eq_getElem hi
                rw [hh] at hsv
                exact Option.some.inj hsv
              simp [List.getElem?_cons_zero, List.get_eq_getElem, this]
            | succ j' =>
              simp only [List.getElem?_cons_succ] at hj ⊢
              apply hset j' o' entry hj
              rw [show i + 1 + j' = i + (j' + 1) by omega]
              exact hsv
          · intro j hle
            cases j with
            | zero => omega
            | succ j' =>
              simp only [List.getElem?_cons_succ]
              exact hskip j' (by omega)
      | jnull => cases h
      | jbool b => cases h
      | jnum n => cases h
      | jstr s => cases h
      | jarr xs => cases h
    · rw [dif_neg hi] at h
      cases hr : fillSeriesLoop sv (i + 1) rest with
      | none => rw [hr] at h; cases h
      | some l =>
        rw [hr] at h
        cases h
        obtain ⟨hlen, hset, hskip⟩ := ih (i + 1) l hr
        refine ⟨by simp [hlen], ?_, ?_⟩
        · intro j o entry hj hsv
          cases j with
          | zero =>
            rw [Nat.add_zero, List.getElem?_eq_none (by omega)] at hsv
            cases hsv
          | succ j' =>
            simp only [List.getElem?_cons_succ] at hj ⊢
            apply hset j' o entry hj
            rw [show i + 1 + j' = i + (j' + 1) by omega]
            exact hsv
        · intro j hle
          cases j with
          | zero => simp
          | succ j' =>
            simp only [List.getElem?_cons_succ]
            exact hskip j' (by omega)

lemma pieLoop_spec (ed : EchartsData) :
    ∀ (items res : List JVal), pieLoop ed items = some res →
      res.length = items.length ∧
      ∀ (j : Nat) (x : JVal), items[j]? = some x →
        ∃ y, pieItem ed x = some y ∧ res[j]? = some y := by
  intro items
  induction items with
  | nil =>
    intro res h
    simp only [pieLoop] at h
    cases h
    simp
  | cons item rest ih =>
    intro res h
    simp only [pieLoop] at h
    cases hp : pieItem ed item with
    | none => rw [hp] at h; cases h
    | some y =>
      rw [hp] at h
      cases hr : pieLoop ed rest with
      | none => rw [hr] at h; cases h
      | some l =>
        rw [hr] at h
        have h' : y :: l = res := by simpa using h
        subst h'
        obtain ⟨hlen, hspec⟩ := ih l hr
        refine ⟨by simp [hlen], ?_⟩
        intro j x hj
        cases j with
        | zero =>
          simp only [List.getElem?_cons_zero, Option.some.injEq] at hj
          subst hj
          exact ⟨y, hp, List.getElem?_cons_zero⟩
        | succ j' =>
          simp only [List.getElem?_cons_succ] at hj ⊢
          exact hspec j' x hj

lemma seriesFillItem_data (entry : String × List Cell) (o : List (String × JVal)) :
    jGet (seriesFillItem entry o) "data" = some (.jarr (entry.2.map cellToJ)) := by
  simp only [seriesFillItem]
  by_cases hn : (jGet (jSet o "data" (.jarr (entry.2.map cellToJ))) "name").isNone
  · rw [if_pos hn, jGet_jSet_ne _ _ _ _ (by simp), jGet_jSet_same]
  · rw [if_neg hn, jGet_jSet_same]

lemma seriesFillItem_name_absent (entry : String × List Cell)
    (o : List (String × JVal)) (h : jGet o "name" = none) :
    jGet (seriesFillItem entry o) "name" = some (.jstr entry.1) := by
  simp only [seriesFillItem]
  have h1 : jGet (jSet o "data" (.jarr (entry.2.map cellToJ))) "name" = none := by
    rw [jGet_jSet_ne _ _ _ _ (by simp), h]
  rw [if_pos (by rw [h1]; rfl), jGet_jSet_same]

lemma seriesFillItem_name_present (entry : String × List Cell)
    (o : List (String × JVal)) (v : JVal) (h : jGet o "name" = some v) :
    jGet (seriesFillItem entry o) "name" = some v := by
  simp only [seriesFillItem]
  have h1 : jGet (jSet o "data" (.jarr (entry.2.map cellToJ))) "name" = some v := by
    rw [jGet_jSet_ne _ _ _ _ (by simp), h]
  rw [if_neg (by rw [h1]; simp), h1]

lemma seriesFillItem_type (entry : String × List Cell) (o : List (String × JVal)) :
    jGet (seriesFillItem entry o) "type" = jGet o "type" := by
  simp only [seriesFillItem]
  by_cases hn : (jGet (jSet o "data" (.jarr (entry.2.map cellToJ))) "name").isNone
  · rw [if_pos hn, jGet_jSet_ne _ _ _ _ (by simp), jGet_jSet_ne _ _ _ _ (by simp)]
  · rw [if_neg hn, jGet_jSet_ne _ _ _ _ (by simp)]

lemma pieItem_not_pie (ed : EchartsData) (o : List (String × JVal))
    (h : jGet o "type" ≠ some (.jstr "pie")) :
    pieItem ed (.jobj o) = some (.jobj o) := by
  simp only [pieItem]
  have hfalse : (match jGet o "type" with
      | some (.jstr t) => decide (t = "pie")
      | _ => false) = false := by
    cases hg : jGet o "type" with
    | none => rfl
    | some v =>
      cases v with
      | jstr t =>
        simp only []
        by_cases ht : t = "pie"
        · subst ht; exact absurd hg h
        · simp [ht]
      | jnull => rfl
      | jbool b => rfl
      | jnum n => rfl
      | jarr xs => rfl
      | jobj fs => rfl
  rw [hfalse]
  simp

lemma pieItem_pie (ed : EchartsData) (o : List (String × JVal))
    (k : String) (vals : List Cell) (rest : List (String × List Cell))
    (h : jGet o "type" = some (.jstr "pie"))
    (hs : ed.series = some ((k, vals) :: rest)) :
    pieItem ed (.jobj o) =
      some (.jobj (jSet o "data" (.jarr (piePairs ed.categories vals)))) := by
  have ht : seriesTruthy ed = true := by simp [seriesTruthy, hs]
  simp [pieItem, h, hs, ht]

lemma to_echarts_categories (qr : QueryResultM) :
    (to_echarts_data qr).categories =
      qr.rows.map (fun r => pyStrCell (r.headD .cnull)) := by
  rcases qr with ⟨cols, rows⟩
  cases rows <;> simp [to_echarts_data]

lemma dictInsert_ne_nil (m : List (String × List Cell)) (k : String)
    (v : List Cell) : dictInsert m k v ≠ [] := by
  cases m with
  | nil => simp [dictInsert]
  | cons a l =>
    by_cases h : (a :: l).any (fun p => p.1 == k) = true
    · simp [dictInsert, h]
    · simp [dictInsert, h]

lemma foldl_dictInsert_ne_nil (v : Nat → List Cell) :
    ∀ (ps : List (Nat × String)) (acc : List (String × List Cell)),
      ps ≠ [] ∨ acc ≠ [] →
      ps.foldl (fun m p => dictInsert m p.2 (v p.1)) acc ≠ [] := by
  intro ps
  induction ps with
  | nil =>
    intro acc h
    rcases h with h | h
    · exact absurd rfl h
    · simpa using h
  | cons p rest ih =>
    intro acc h
    rw [List.foldl_cons]
    exact ih _ (.inr (dictInsert_ne_nil acc p.2 (v p.1)))

lemma foldl_dictInsert_nodup (v : Nat → List Cell) :
    ∀ (ps : List (Nat × String)) (acc : List (String × List Cell)),
      (ps.map Prod.snd).Nodup →
      (∀ q ∈ ps, ∀ e ∈ acc, e.1 ≠ q.2) →
      ps.foldl (fun m p => dictInsert m p.2 (v p.1)) acc =
        acc ++ ps.map (fun p => (p.2, v p.1)) := by
  intro ps
  induction ps with
  | nil =>
    intro acc h1 h2
    simp
  | cons p rest ih =>
    intro acc hnodup hfresh
    have hany : acc.any (fun e => e.1 == p.2) = false := by
      rw [List.any_eq_false]
      intro e he
      simp only [beq_iff_eq]
      exact hfresh p (List.mem_cons_self p rest) e he
    have hstep : dictInsert acc p.2 (v p.1) = acc ++ [(p.2, v p.1)] := by
      simp only [dictInsert, hany, Bool.false_eq_true, if_false]
    simp only [List.map_cons, List.nodup_cons] at hnodup
    rw [List.foldl_cons, hstep, ih (acc ++ [(p.2, v p.1)]) hnodup.2 ?fresh,
      List.append_assoc]
    · rfl
    case fresh =>
      intro q hq e he
      rcases List.mem_append.mp he with h | h
      · exact hfresh q (List.mem_cons_of_mem p hq) e h
      · simp only [List.mem_singleton] at h
        subst h
        intro hcontra
        apply hnodup.1
        rw [show p.2 = q.2 from hcontra]
        exact List.mem_map_of_mem Prod.snd hq

lemma to_echarts_series_some (qr : QueryResultM) (hrows : qr.rows ≠ [])
    (hnodup : (qr.columns.drop 1).Nodup) :
    (to_echarts_data qr).series =
      some ((qr.columns.drop 1).enum.map
        (fun p => (p.2, qr.rows.map (fun row => row.getD (p.1 + 1) Cell.cnull)))) := by
  rcases qr with ⟨cols, rows⟩
  cases rows with
  | nil => simp at hrows
  | cons r rs =>
    have h := foldl_dictInsert_nodup
      (fun i => (r :: rs).map (fun row => row.getD (i + 1) Cell.cnull))
      (cols.drop 1).enum []
      (by rw [List.enum_map_snd]; exact hnodup)
      (fun q _ e he => absurd he (List.not_mem_nil e))
    simp only [List.nil_append] at h
    simp only [to_echarts_data]
    rw [show ((cols.drop 1).enum.foldl
        (fun m p => dictInsert m p.2
          ((r :: rs).map (fun row => row.getD (p.1 + 1) Cell.cnull))) []) =
        (cols.drop 1).enum.map
          (fun p => (p.2, (r :: rs).map (fun row => row.getD (p.1 + 1) Cell.cnull)))
      from h]

lemma seriesTruthy_true (qr : QueryResultM) (hrows : qr.rows ≠ [])
    (hcols : 2 ≤ qr.columns.length) :
    seriesTruthy (to_echarts_data qr) = true := by
  rcases qr with ⟨cols, rows⟩
  cases rows with
  | nil => simp at hrows
  | cons r rs =>
    cases cols with
    | nil => simp at hcols
    | cons c0 cols' =>
      cases cols' with
      | nil => simp at hcols
      | cons c1 cols'' =>
        have hne := foldl_dictInsert_ne_nil
          (fun i => (r :: rs).map (fun row => row.getD (i + 1) Cell.cnull))
          ((c1 :: cols'').enum) []
          (.inl (by simp [List.enum_cons]))
        simp only [to_echarts_data, seriesTruthy, List.drop_succ_cons,
          List.drop_zero]
        rw [Bool.not_eq_true']
        rw [List.isEmpty_eq_false]
        exact hne

lemma sv_entry (qr : QueryResultM) (j : Nat) (colName : String)
    (h : (qr.columns.drop 1)[j]? = some colName) (hrows : qr.rows ≠ [])
    (hnodup : (qr.columns.drop 1).Nodup) :
    ((to_echarts_data qr).series.getD [])[j]? =
      some (colName, qr.rows.map (fun r => r.getD (j + 1) Cell.cnull)) := by
  rw [to_echarts_series_some qr hrows hnodup]
  simp only [Option.getD_some]
  rw [List.getElem?_map, List.getElem?_enum, h]
  rfl

/-- C9 (amended).  For a filling that completes (`some res`): an `xAxis`
object's `data` is set to the stringified first-column cells; when `xAxis`
is a non-empty list (of objects), only the first entry's `data` is set and
the remaining entries are unchanged; and — provided the result has at least
one row and a remaining column, which the code requires before populating
series, and the remaining column names are pairwise distinct, since a
duplicate name collapses into a single `series_data` dict entry (last value
winning) — `series[i].data` is set from the `i`-th remaining column, a
series lacking a `name` gets that column's name (an existing name is
preserved), and every series whose `type` is `"pie"` has its `data`
replaced by `{name, value}` pairs from the first column and the first
remaining column, dropping pairs with a null value. -/
theorem fill_echarts_rules (opt : List (String × JVal)) (qr : QueryResultM)
    (res : List (String × JVal)) (hres : fill_echarts_data opt qr = some res) :
    (∀ x, jGet opt "xAxis" = some (.jobj x) →
      ∃ x', jGet res "xAxis" = some (.jobj x') ∧
        jGet x' "data" =
          some (.jarr ((qr.rows.map (fun r => pyStrCell (r.headD .cnull))).map .jstr))) ∧
    (∀ x0 tl, jGet opt "xAxis" = some (.jarr (.jobj x0 :: tl)) →
      jGet res "xAxis" = some (.jarr (.jobj (jSet x0 "data"
        (.jarr ((qr.rows.map (fun r => pyStrCell (r.headD .cnull))).map .jstr))) :: tl))) ∧
    (∀ items, jGet opt "series" = some (.jarr items) →
      qr.rows ≠ [] → 2 ≤ qr.columns.length → (qr.columns.drop 1).Nodup →
      ∃ items', jGet res "series" = some (.jarr items') ∧
        items'.length = items.length ∧
        (∀ (j : Nat) (o : List (String × JVal)) (colName : String),
          items[j]? = some (.jobj o) →
          (qr.columns.drop 1)[j]? = some colName →
          jGet o "type" ≠ some (.jstr "pie") →
          ∃ o', items'[j]? = some (.jobj o') ∧
            jGet o' "data" = some (.jarr ((qr.rows.map
              (fun r => r.getD (j + 1) Cell.cnull)).map cellToJ)) ∧
            (jGet o "name" = none → jGet o' "name" = some (.jstr colName)) ∧
            (∀ v, jGet o "name" = some v → jGet o' "name" = some v)) ∧
        (∀ (j : Nat) (o : List (String × JVal)),
          items[j]? = some (.jobj o) → jGet o "type" = some (.jstr "pie") →
          ∃ o', items'[j]? = some (.jobj o') ∧
            jGet o' "data" = some (.jarr (piePairs
              (qr.rows.map (fun r => pyStrCell (r.headD .cnull)))
              (qr.rows.map (fun r => r.getD 1 Cell.cnull)))))) := by
  obtain ⟨o1, h1, o2, h2, h3⟩ :
      ∃ o1, fillXAxis (to_echarts_data qr).categories opt = some o1 ∧
        ∃ o2, fillSeriesPass (to_echarts_data qr) o1 = some o2 ∧
          piePass (to_echarts_data qr) o2 = some res := by
    simp only [fill_echarts_data] at hres
    split at hres
    · cases hres
    · rename_i a hx
      split at hres
      · cases hres
      · rename_i b hp
        exact ⟨a, hx, b, hp, hres⟩
  have hcat := to_echarts_categories qr
  refine ⟨?_, ?_, ?_⟩
  · -- xAxis object
    intro x hx
    have e1 := fillXAxis_obj (to_echarts_data qr).categories opt x hx
    rw [h1] at e1
    have ho1 := Option.some.inj e1
    refine ⟨jSet x "data"
      (.jarr ((qr.rows.map (fun r => pyStrCell (r.headD .cnull))).map .jstr)), ?_, ?_⟩
    · rw [piePass_xAxis_eq _ _ _ h3, fillSeriesPass_xAxis_eq _ _ _ h2, ho1,
        jGet_jSet_same, hcat]
    · rw [jGet_jSet_same]
  · -- xAxis non-empty list: only the first entry is updated
    intro x0 tl hx
    have e1 := fillXAxis_list (to_echarts_data qr).categories opt x0 tl hx
    rw [h1] at e1
    have ho1 := Option.some.inj e1
    rw [piePass_xAxis_eq _ _ _ h3, fillSeriesPass_xAxis_eq _ _ _ h2, ho1,
      jGet_jSet_same, hcat]
  · -- series population
    intro items hser hrows hcols hnodup
    have ht := seriesTruthy_true qr hrows hcols
    have hsero1 : jGet o1 "series" = some (.jarr items) := by
      rw [fillXAxis_series_eq _ _ _ h1, hser]
    have e2 := fillSeriesPass_arr (to_echarts_data qr) o1 items hsero1 ht
    rw [e2] at h2
    cases hl : fillSeriesLoop ((to_echarts_data qr).series.getD []) 0 items with
    | none => rw [hl] at h2; cases h2
    | some items2 =>
      rw [hl] at h2
      have ho2 : jSet o1 "series" (.jarr items2) = o2 := by simpa using h2
      have hsero2 : jGet o2 "series" = some (.jarr items2) := by
        rw [← ho2, jGet_jSet_same]
      have e3 := piePass_arr (to_echarts_data qr) o2 items2 hsero2
      rw [e3] at h3
      cases hp : pieLoop (to_echarts_data qr) items2 with
      | none => rw [hp] at h3; cases h3
      | some items3 =>
        rw [hp] at h3
        have hres3 : jSet o2 "series" (.jarr items3) = res := by simpa using h3
        obtain ⟨hlen2, hset, hskip⟩ :=
          fillSeriesLoop_spec ((to_echarts_data qr).series.getD []) items 0 items2 hl
        obtain ⟨hlen3, hpspec⟩ := pieLoop_spec (to_echarts_data qr) items2 items3 hp
        refine ⟨items3, by rw [← hres3, jGet_jSet_same], by omega, ?_, ?_⟩
        · -- non-pie series
          intro j o colName hj hcol hnp
          have hsv := sv_entry qr j colName hcol hrows hnodup
          have h2j := hset j o (colName, qr.rows.map (fun r => r.getD (j + 1) Cell.cnull))
            hj (by rw [Nat.zero_add]; exact hsv)
          have htype := seriesFillItem_type
            (colName, qr.rows.map (fun r => r.getD (j + 1) Cell.cnull)) o
          have hnotpie := pieItem_not_pie (to_echarts_data qr)
            (seriesFillItem (colName, qr.rows.map (fun r => r.getD (j + 1) Cell.cnull)) o)
            (by rw [htype]; exact hnp)
          obtain ⟨y, hy, h3j⟩ := hpspec j _ h2j
          rw [hnotpie] at hy
          have hy' := Option.some.inj hy
          refine ⟨seriesFillItem (colName, qr.rows.map (fun r => r.getD (j + 1) Cell.cnull)) o,
            by rw [h3j, ← hy'], ?_, ?_, ?_⟩
          · exact seriesFillItem_data _ _
          · intro hn; exact seriesFillItem_name_absent _ _ hn
          · intro v hn; exact seriesFillItem_name_present _ _ v hn
        · -- pie series
          intro j o hj htype
          obtain ⟨c0, c1, cs, hcolsEq⟩ : ∃ c0 c1 cs, qr.columns = c0 :: c1 :: cs := by
            cases hq : qr.columns with
            | nil => rw [hq] at hcols; simp at hcols
            | cons a rest =>
              cases rest with
              | nil => rw [hq] at hcols; simp at hcols
              | cons b cs => exact ⟨a, b, cs, rfl⟩
          have hc1 : (qr.columns.drop 1)[0]? = some c1 := by rw [hcolsEq]; simp
          have hsv0 := sv_entry qr 0 c1 hc1 hrows hnodup
          have hsvser : (to_echarts_data qr).series =
              some ((to_echarts_data qr).series.getD []) := by
            rw [to_echarts_series_some qr hrows hnodup]; rfl
          obtain ⟨svrest, hsvshape⟩ :
              ∃ svrest, (to_echarts_data qr).series.getD [] =
                (c1, qr.rows.map (fun r => r.getD 1 Cell.cnull)) :: svrest := by
            cases hq : (to_echarts_data qr).series.getD [] with
            | nil => rw [hq] at hsv0; cases hsv0
            | cons e0 svrest =>
              rw [hq] at hsv0
              simp only [List.getElem?_cons_zero, Option.some.injEq] at hsv0
              exact ⟨svrest, by rw [hsv0]⟩
          have hedser : (to_echarts_data qr).series =
              some ((c1, qr.rows.map (fun r => r.getD 1 Cell.cnull)) :: svrest) := by
            rw [hsvser, hsvshape]
          by_cases hjsv : j < ((to_echarts_data qr).series.getD []).length
          · have h2j := hset j o (((to_echarts_data qr).series.getD []).get ⟨j, hjsv⟩)
              hj (by rw [Nat.zero_add]; exact (List.getElem?_eq_getElem hjsv).trans rfl)
            have htype' : jGet (seriesFillItem
                (((to_echarts_data qr).series.getD []).get ⟨j, hjsv⟩) o) "type" =
                some (.jstr "pie") := by
              rw [seriesFillItem_type, htype]
            have hpie := pieItem_pie (to_echarts_data qr) _ c1
              (qr.rows.map (fun r => r.getD 1 Cell.cnull)) svrest htype' hedser
            obtain ⟨y, hy, h3j⟩ := hpspec j _ h2j
            rw [hpie] at hy
            have hy' := Option.some.inj hy
            refine ⟨_, by rw [h3j, ← hy'], ?_⟩
            rw [jGet_jSet_same, hcat]
          · have h2j : items2[j]? = some (.jobj o) := by
              rw [hskip j (by omega)]; exact hj
            have hpie := pieItem_pie (to_echarts_data qr) o c1
              (qr.rows.map (fun r => r.getD 1 Cell.cnull)) svrest htype hedser
            obtain ⟨y, hy, h3j⟩ := hpspec j _ h2j
            rw [hpie] at hy
            have hy' := Option.some.inj hy
            refine ⟨_, by rw [h3j, ← hy'], ?_⟩
            rw [jGet_jSet_same, hcat]

/-- C9 (counterexample).  On a result with columns but no rows,
`to_echarts_data` returns no `"series"` key, so the guard
`echarts_data.get("series")` is falsy and `_fill_echarts_data` leaves every
series untouched: with option `{"series": [{"type": "bar"}]}` and result
`columns=["c","v"], rows=[]`, the output series item still has no `data`
key, whereas the claim ("series[i].data is populated from the i-th
remaining result column") requires `data = []` — the 0-th remaining column
of an empty table. -/
theorem fill_echarts_empty_rows_skips_series :
    fill_echarts_data optBar qrEmpty = some optBar ∧
    jGet optBar "series" = some (.jarr [.jobj [("type", .jstr "bar")]]) ∧
    jGet [("type", JVal.jstr "bar")] "data" = none := by
  exact ⟨rfl, rfl, rfl⟩

/-- Witness for C9's amended theorem: the spec's concrete scenario
(rows `[["BJ", 3], ["SH", 2]]`): concrete categories, concrete series data
and name, and concrete pie pairs. -/
theorem fill_echarts_rules_witness :
    (∃ res, fill_echarts_data optW qr0 = some res ∧
      (∃ x', jGet res "xAxis" = some (.jobj x') ∧
        jGet x' "data" = some (.jarr [.jstr "BJ", .jstr "SH"])) ∧
      (∃ items', jGet res "series" = some (.jarr items') ∧
        ∃ o', items'[0]? = some (.jobj o') ∧
          jGet o' "data" = some (.jarr [.jnum "3", .jnum "2"]) ∧
          jGet o' "name" = some (.jstr "cnt"))) ∧
    (∃ res2, fill_echarts_data optPie qr0 = some res2 ∧
      ∃ items2, jGet res2 "series" = some (.jarr items2) ∧
        ∃ p', items2[0]? = some (.jobj p') ∧
          jGet p' "data" = some (.jarr
            [.jobj [("name", .jstr "BJ"), ("value", .jnum "3")],
             .jobj [("name", .jstr "SH"), ("value", .jnum "2")]])) := by
  constructor
  · obtain ⟨res, hres⟩ : ∃ res, fill_echarts_data optW qr0 = some res := ⟨_, rfl⟩
    have h := fill_echarts_rules optW qr0 res hres
    refine ⟨res, hres, ?_, ?_⟩
    · obtain ⟨x', hx1, hx2⟩ := h.1 [("type", .jstr "category")] (by rfl)
      exact ⟨x', hx1, by rw [hx2]; rfl⟩
    · obtain ⟨items', hs1, _, hnp, _⟩ :=
        h.2.2 [.jobj [("type", .jstr "bar")]] (by rfl) (by simp [qr0]) (by simp [qr0])
          (by decide)
      obtain ⟨o', ho1, ho2, ho3, _⟩ :=
        hnp 0 [("type", .jstr "bar")] "cnt" (by rfl) (by rfl)
          (by rw [show jGet [("type", JVal.jstr "bar")] "type" =
                some (JVal.jstr "bar") from rfl]; simp)
      exact ⟨items', hs1, o', ho1, by rw [ho2]; rfl, by rw [ho3 (by rfl)]⟩
  · obtain ⟨res2, hres2⟩ : ∃ res2, fill_echarts_data optPie qr0 = some res2 := ⟨_, rfl⟩
    have h := fill_echarts_rules optPie qr0 res2 hres2
    obtain ⟨items2, hs1, _, _, hpie⟩ :=
      h.2.2 [.jobj [("type", .jstr "pie")]] (by rfl) (by simp [qr0]) (by simp [qr0])
        (by decide)
    obtain ⟨p', hp1, hp2⟩ := hpie 0 [("type", .jstr "pie")] (by rfl) (by rfl)
    exact ⟨res2, hres2, items2, hs1, p', hp1, by rw [hp2]; rfl⟩

/-! ### State-machine helper lemmas -/

lemma llmLoop_events_thought :
    ∀ (evs : List (String × String)) (ft sq vz ct : String),
      ∀ e ∈ (llmLoop evs ft sq vz ct).events, ∃ c d, e = EData.thoughtD c d := by
  intro evs
  induction evs with
  | nil =>
    intro ft sq vz ct e he
    simp [llmLoop] at he
  | cons p rest ih =>
    intro ft sq vz ct e he
    obtain ⟨et, c⟩ := p
    simp only [llmLoop] at he
    split_ifs at he with h1 h2 h3 h4 h5 h6
    · rcases List.mem_cons.mp he with rfl | htail
      · exact ⟨c, false, rfl⟩
      · exact ih _ _ _ _ e htail
    · rcases List.mem_cons.mp he with rfl | htail
      · exact ⟨c, true, rfl⟩
      · exact ih _ _ _ _ e htail
    · exact ih _ _ _ _ e he
    · exact ih _ _ _ _ e he
    · exact ih _ _ _ _ e he
    · simp at he
    · exact ih _ _ _ _ e he

lemma llmLoop_chart (evs : List (String × String)) :
    ∀ ft sq vz ct, (llmLoop evs ft sq vz ct).chart =
      (((evs.takeWhile (fun e => !(e.1 == "error"))).filter
        (fun e => e.1 == "chart_type")).map Prod.snd).getLastD ct := by
  induction evs with
  | nil => intro ft sq vz ct; rfl
  | cons p rest ih =>
    obtain ⟨et, c⟩ := p
    intro ft sq vz ct
    by_cases h1 : et = "thinking_delta"
    · subst h1
      have hL : (llmLoop (("thinking_delta", c) :: rest) ft sq vz ct).chart =
          (llmLoop rest ft sq vz ct).chart := by simp [llmLoop]
      rw [hL, ih]
      rfl
    · by_cases h2 : et = "thinking_full"
      · subst h2
        have hL : (llmLoop (("thinking_full", c) :: rest) ft sq vz ct).chart =
            (llmLoop rest c sq vz ct).chart := by simp [llmLoop]
        rw [hL, ih]
        rfl
      · by_cases h3 : et = "sql"
        · subst h3
          have hL : (llmLoop (("sql", c) :: rest) ft sq vz ct).chart =
              (llmLoop rest ft c vz ct).chart := by simp [llmLoop]
          rw [hL, ih]
          rfl
        · by_cases h4 : et = "chart_type"
          · subst h4
            have hL : (llmLoop (("chart_type", c) :: rest) ft sq vz ct).chart =
                (llmLoop rest ft sq vz c).chart := by simp [llmLoop]
            rw [hL, ih]
            have e1 : List.takeWhile (fun e => !(e.1 == "error"))
                ((("chart_type", c) : String × String) :: rest) =
                ("chart_type", c) :: List.takeWhile (fun e => !(e.1 == "error")) rest := rfl
            have e2 : List.filter (fun e => e.1 == "chart_type")
                ((("chart_type", c) : String × String) ::
                  List.takeWhile (fun e => !(e.1 == "error")) rest) =
                ("chart_type", c) :: List.filter (fun e => e.1 == "chart_type")
                  (List.takeWhile (fun e => !(e.1 == "error")) rest) := rfl
            rw [e1, e2, List.map_cons, List.getLastD_cons]
          · by_cases h5 : et = "viz_config"
            · subst h5
              have hL : (llmLoop (("viz_config", c) :: rest) ft sq vz ct).chart =
                  (llmLoop rest ft sq c ct).chart := by simp [llmLoop]
              rw [hL, ih]
              rfl
            · by_cases h6 : et = "error"
              · subst h6
                have hL : (llmLoop (("error", c) :: rest) ft sq vz ct).chart = ct := by
                  simp [llmLoop]
                rw [hL]
                rfl
              · have hL : (llmLoop ((et, c) :: rest) ft sq vz ct).chart =
                    (llmLoop rest ft sq vz ct).chart := by
                  simp [llmLoop, h1, h2, h3, h4, h5, h6]
                rw [hL, ih, List.takeWhile_cons]
                simp [h4, h6]

lemma runSM_shape (maxRetries : Nat) (env : RunEnv) (h : env.rateErr = none) :
    ∃ T, runSM maxRetries env =
        .stateD "schema_retrieval" :: .stateD "llm_generation" ::
          ((llmLoop env.llmEvents "" "" "" "bar").events ++ T) ∧
      ((∃ c m, T = [.errorD c m]) ∨
       T = [] ∨
       (∃ c, T = [.thoughtD c true, .errorD "NO_SQL" "模型未生成有效 SQL"]) ∨
       (∃ c m n msg, T = .stateD "sql_validation" ::
          (List.replicate n (.thoughtD msg false) ++ [.errorD c m])) ∨
       (∃ s raw c m, T = [.stateD "sql_validation", .sqlD s raw,
          .stateD "sql_execution", .errorD c m]) ∨
       (∃ s raw qr V, T = .stateD "sql_validation" :: .sqlD s raw ::
          .stateD "sql_execution" :: .stateD "result_streaming" :: .dataD qr ::
          .chartTypeD (llmLoop env.llmEvents "" "" "" "bar").chart :: V ∧
          (V = [.stateD "completed", .doneD "查询完成"] ∨
           (∃ f, V = [.vizD f, .stateD "completed", .doneD "查询完成"]) ∨
           V = []))) := by
  simp only [runSM, h]
  split
  · -- r.err = some ec
    split
    · exact ⟨_, rfl, .inl ⟨_, _, rfl⟩⟩
    · exact ⟨[], rfl, .inr (.inl rfl)⟩
  · -- r.err = none
    split
    · -- r.sql = ""
      exact ⟨_, rfl, .inr (.inr (.inl ⟨_, rfl⟩))⟩
    · split
      · -- maxRetries = 0
        exact ⟨_, rfl, .inr (.inr (.inr (.inl
          ⟨"VALIDATION_FAILED", "SQL 校验失败", 0, "", rfl⟩)))⟩
      · split
        · -- validate error
          exact ⟨_, rfl, .inr (.inr (.inr (.inl ⟨_, _, _, _, rfl⟩)))⟩
        · -- validate ok s
          split
          · -- s = ""
            exact ⟨_, rfl, .inr (.inr (.inr (.inl
              ⟨"VALIDATION_FAILED", "SQL 校验失败", 0, "", rfl⟩)))⟩
          · -- s ≠ ""
            split
            · -- limiter error
              exact ⟨_, rfl, .inr (.inr (.inr (.inr (.inl ⟨_, _, _, _, rfl⟩))))⟩
            · -- exec error
              exact ⟨_, rfl, .inr (.inr (.inr (.inr (.inl ⟨_, _, _, _, rfl⟩))))⟩
            · -- ok qr
              simp only [tailEvents]
              split
              · -- viz nonempty
                split
                · -- vizParse some
                  split
                  · -- fill some
                    exact ⟨_, rfl, .inr (.inr (.inr (.inr (.inr
                      ⟨_, _, _, _, rfl, .inr (.inl ⟨_, rfl⟩)⟩))))⟩
                  · -- fill none
                    exact ⟨_, rfl, .inr (.inr (.inr (.inr (.inr
                      ⟨_, _, _, _, rfl, .inr (.inr rfl)⟩))))⟩
                · -- vizParse none
                  exact ⟨_, rfl, .inr (.inr (.inr (.inr (.inr
                    ⟨_, _, _, _, rfl, .inl rfl⟩))))⟩
              · -- viz empty
                exact ⟨_, rfl, .inr (.inr (.inr (.inr (.inr
                  ⟨_, _, _, _, rfl, .inl rfl⟩))))⟩

/-- Helper: every event in the common prefix of a non-rate-limited run —
the two state events followed by the LLM thought events — is a `state`
or `thought` event. -/
lemma runPrefix_cases (env : RunEnv) :
    ∀ e ∈ (EData.stateD "schema_retrieval" :: EData.stateD "llm_generation" ::
      (llmLoop env.llmEvents "" "" "" "bar").events),
      e = EData.stateD "schema_retrieval" ∨ e = EData.stateD "llm_generation" ∨
      ∃ c d, e = EData.thoughtD c d := by
  intro e he
  rcases List.mem_cons.mp he with rfl | he
  · exact .inl rfl
  · rcases List.mem_cons.mp he with rfl | he
    · exact .inr (.inl rfl)
    · exact .inr (.inr (llmLoop_events_thought env.llmEvents "" "" "" "bar" e he))

/-- Helper: the common run prefix contains no `error` event. -/
lemma runPrefix_noerr (env : RunEnv) :
    ∀ e ∈ (EData.stateD "schema_retrieval" :: EData.stateD "llm_generation" ::
      (llmLoop env.llmEvents "" "" "" "bar").events), e.tag ≠ "error" := by
  intro e he
  rcases runPrefix_cases env e he with rfl | rfl | ⟨c, d, rfl⟩ <;> simp [EData.tag]

/-- Helper: the common run prefix contains no core event. -/
lemma runPrefix_nocore (env : RunEnv) :
    (EData.stateD "schema_retrieval" :: EData.stateD "llm_generation" ::
      (llmLoop env.llmEvents "" "" "" "bar").events).filter isCoreEv = [] := by
  rw [List.filter_eq_nil_iff]
  intro e he
  rcases runPrefix_cases env e he with rfl | rfl | ⟨c, d, rfl⟩ <;>
    simp [isCoreEv, EData.tag]

/-- Helper: the common run prefix contains no `done` event. -/
lemma runPrefix_nodone (env : RunEnv) (m : String) :
    EData.doneD m ∉ (EData.stateD "schema_retrieval" :: EData.stateD "llm_generation" ::
      (llmLoop env.llmEvents "" "" "" "bar").events) := by
  intro hm
  rcases runPrefix_cases env _ hm with h | h | ⟨c, d, h⟩ <;> simp at h

/-- Helper: dropping the last element of `P ++ (T₀ ++ [x])` leaves only
events of `P` and `T₀`. -/
lemma dropLast_noerr_concat (P T₀ : List EData) (x : EData)
    (hP : ∀ e ∈ P, e.tag ≠ "error") (hT : ∀ e ∈ T₀, e.tag ≠ "error") :
    ∀ e ∈ (P ++ (T₀ ++ [x])).dropLast, e.tag ≠ "error" := by
  rw [← List.append_assoc, List.dropLast_concat]
  intro e he
  rcases List.mem_append.mp he with h | h
  · exact hP e h
  · exact hT e h

/-- Helper: a list without `error` events keeps that property after
`dropLast`. -/
lemma dropLast_noerr_all (L : List EData) (h : ∀ e ∈ L, e.tag ≠ "error") :
    ∀ e ∈ L.dropLast, e.tag ≠ "error" :=
  fun e he => h e ((List.dropLast_sublist L).subset he)

/-- Helper: the last element of `P ++ (T₀ ++ [x])` is `x`. -/
lemma getLast_append_concat (P T₀ : List EData) (x : EData) :
    (P ++ (T₀ ++ [x])).getLast? = some x := by
  rw [← List.append_assoc, List.getLast?_concat]

/-- Helper: filtering an appended run by `isCoreEv` ignores a core-free
prefix. -/
lemma filter_core_append (P T : List EData) (h : P.filter isCoreEv = []) :
    (P ++ T).filter isCoreEv = T.filter isCoreEv := by
  rw [List.filter_append, h, List.nil_append]

/-- C6.  In every run of the state machine an `error` event can only be
the final event (no event follows an error, so it also occurs at most
once), and every run containing a `done` event has it as its last event,
with its core events in the order `data`, `chart_type`, optionally
`viz_config`, `done`. -/
theorem sm_event_order (maxRetries : Nat) (env : RunEnv) :
    (∀ e ∈ (runSM maxRetries env).dropLast, e.tag ≠ "error") ∧
    (∀ m', EData.doneD m' ∈ runSM maxRetries env →
      (runSM maxRetries env).getLast? = some (EData.doneD m') ∧
      ∃ qr ct,
        ((runSM maxRetries env).filter isCoreEv =
           [EData.dataD qr, EData.chartTypeD ct, EData.doneD m'] ∨
         ∃ v, (runSM maxRetries env).filter isCoreEv =
           [EData.dataD qr, EData.chartTypeD ct, EData.vizD v, EData.doneD m'])) := by
  cases hre : env.rateErr with
  | some e =>
    constructor
    · intro x hx
      simp [runSM, hre] at hx
    · intro m' hm
      simp [runSM, hre] at hm
  | none =>
    obtain ⟨T, hrun, hT⟩ := runSM_shape maxRetries env hre
    rw [show EData.stateD "schema_retrieval" :: EData.stateD "llm_generation" ::
        ((llmLoop env.llmEvents "" "" "" "bar").events ++ T) =
        (EData.stateD "schema_retrieval" :: EData.stateD "llm_generation" ::
         (llmLoop env.llmEvents "" "" "" "bar").events) ++ T from rfl] at hrun
    have hPnoerr := runPrefix_noerr env
    have hPnocore := runPrefix_nocore env
    have hPnodone := runPrefix_nodone env
    rw [hrun]
    rcases hT with ⟨c, m, rfl⟩ | rfl | ⟨c, rfl⟩ | ⟨c, m, n, msg, rfl⟩ |
      ⟨s, raw, c, m, rfl⟩ | ⟨s, raw, qr, V, rfl, hV⟩
    · -- parse-error shape: [errorD c m]
      refine ⟨?_, ?_⟩
      · exact dropLast_noerr_concat _ [] (EData.errorD c m) hPnoerr (by simp)
      · intro m' hm
        rcases List.mem_append.mp hm with h | h
        · exact absurd h (hPnodone m')
        · simp at h
    · -- generator-death shape: []
      refine ⟨?_, ?_⟩
      · rw [List.append_nil]
        exact dropLast_noerr_all _ hPnoerr
      · intro m' hm
        rw [List.append_nil] at hm
        exact absurd hm (hPnodone m')
    · -- NO_SQL shape
      refine ⟨?_, ?_⟩
      · refine dropLast_noerr_concat _ [EData.thoughtD c true] _ hPnoerr ?_
        intro e he
        simp at he
        rcases he with rfl
        simp [EData.tag]
      · intro m' hm
        rcases List.mem_append.mp hm with h | h
        · exact absurd h (hPnodone m')
        · simp at h
    · -- validation-failure shape
      refine ⟨?_, ?_⟩
      · refine dropLast_noerr_concat _
          (EData.stateD "sql_validation" :: List.replicate n (EData.thoughtD msg false))
          (EData.errorD c m) hPnoerr ?_
        intro e he
        rcases List.mem_cons.mp he with rfl | he
        · simp [EData.tag]
        · rw [List.eq_of_mem_replicate he]
          simp [EData.tag]
      · intro m' hm
        rcases List.mem_append.mp hm with h | h
        · exact absurd h (hPnodone m')
        · rcases List.mem_cons.mp h with h2 | h2
          · simp at h2
          · rcases List.mem_append.mp h2 with h3 | h3
            · have h4 := List.eq_of_mem_replicate h3
              simp at h4
            · simp at h3
    · -- execution-error shape
      refine ⟨?_, ?_⟩
      · refine dropLast_noerr_concat _
          [EData.stateD "sql_validation", EData.sqlD s raw, EData.stateD "sql_execution"]
          (EData.errorD c m) hPnoerr ?_
        intro e he
        simp at he
        rcases he with rfl | rfl | rfl <;> simp [EData.tag]
      · intro m' hm
        rcases List.mem_append.mp hm with h | h
        · exact absurd h (hPnodone m')
        · simp at h
    · -- success shape
      rcases hV with rfl | ⟨f, rfl⟩ | rfl
      · -- no viz config
        refine ⟨?_, ?_⟩
        · refine dropLast_noerr_concat _
            [EData.stateD "sql_validation", EData.sqlD s raw, EData.stateD "sql_execution",
             EData.stateD "result_streaming", EData.dataD qr,
             EData.chartTypeD (llmLoop env.llmEvents "" "" "" "bar").chart,
             EData.stateD "completed"]
            (EData.doneD "查询完成") hPnoerr ?_
          · intro e he
            simp at he
            rcases he with rfl | rfl | rfl | rfl | rfl | rfl | rfl <;> simp [EData.tag]
        · intro m' hm
          rcases List.mem_append.mp hm with h | h
          · exact absurd h (hPnodone m')
          · simp at h
            subst h
            refine ⟨?_, qr, (llmLoop env.llmEvents "" "" "" "bar").chart, .inl ?_⟩
            · exact getLast_append_concat _
                [EData.stateD "sql_validation", EData.sqlD s raw,
                 EData.stateD "sql_execution", EData.stateD "result_streaming",
                 EData.dataD qr,
                 EData.chartTypeD (llmLoop env.llmEvents "" "" "" "bar").chart,
                 EData.stateD "completed"] (EData.doneD "查询完成")
            · rw [filter_core_append _ _ hPnocore]
              rfl
      · -- with viz config
        refine ⟨?_, ?_⟩
        · refine dropLast_noerr_concat _
            [EData.stateD "sql_validation", EData.sqlD s raw, EData.stateD "sql_execution",
             EData.stateD "result_streaming", EData.dataD qr,
             EData.chartTypeD (llmLoop env.llmEvents "" "" "" "bar").chart,
             EData.vizD f, EData.stateD "completed"]
            (EData.doneD "查询完成") hPnoerr ?_
          · intro e he
            simp at he
            rcases he with rfl | rfl | rfl | rfl | rfl | rfl | rfl | rfl <;>
              simp [EData.tag]
        · intro m' hm
          rcases List.mem_append.mp hm with h | h
          · exact absurd h (hPnodone m')
          · simp at h
            subst h
            refine ⟨?_, qr, (llmLoop env.llmEvents "" "" "" "bar").chart,
              .inr ⟨f, ?_⟩⟩
            · exact getLast_append_concat _
                [EData.stateD "sql_validation", EData.sqlD s raw,
                 EData.stateD "sql_execution", EData.stateD "result_streaming",
                 EData.dataD qr,
                 EData.chartTypeD (llmLoop env.llmEvents "" "" "" "bar").chart,
                 EData.vizD f, EData.stateD "completed"] (EData.doneD "查询完成")
            · rw [filter_core_append _ _ hPnocore]
              rfl
      · -- viz fill dies: run truncated after chart_type, no done event
        refine ⟨?_, ?_⟩
        · refine dropLast_noerr_all _ ?_
          intro e he
          rcases List.mem_append.mp he with h | h
          · exact hPnoerr e h
          · simp at h
            rcases h with rfl | rfl | rfl | rfl | rfl | rfl <;> simp [EData.tag]
        · intro m' hm
          rcases List.mem_append.mp hm with h | h
          · exact absurd h (hPnodone m')
          · simp at h

/-- C6 witness: the fully successful oracle run contains a `done` event
and the theorem places it last. -/
theorem sm_event_order_witness :
    EData.doneD "查询完成" ∈ runSM 3 envOk ∧
    (runSM 3 envOk).getLast? = some (EData.doneD "查询完成") := by
  have hmem : EData.doneD "查询完成" ∈ runSM 3 envOk := by
    have h : runSM 3 envOk =
        [EData.stateD "schema_retrieval", EData.stateD "llm_generation",
         EData.thoughtD "t" false, EData.thoughtD "think" true,
         EData.stateD "sql_validation", EData.sqlD "SELECT 1" "SELECT 1",
         EData.stateD "sql_execution", EData.stateD "result_streaming",
         EData.dataD qr0, EData.chartTypeD "bar",
         EData.stateD "completed", EData.doneD "查询完成"] := rfl
    rw [h]
    simp
  exact ⟨hmem, ((sm_event_order 3 envOk).2 "查询完成" hmem).1⟩

/-- Helper: the chart type the consumption loop ends with is the content
of the last `chart_type` event before the first `error` event, defaulting
to `"bar"`. -/
lemma llmLoop_chart_lastChart (env : RunEnv) :
    (llmLoop env.llmEvents "" "" "" "bar").chart =
      lastChartContent (beforeError env.llmEvents) := by
  simp only [lastChartContent, beforeError]
  rw [llmLoop_chart env.llmEvents "" "" "" "bar", List.getLastD_eq_getLast?]

/-- C8 counterexample: a stream yielding `chart_type = "scatter"` — a
value outside the documented set — is propagated verbatim into the run's
`chart_type` event, not coerced to `"bar"`. -/
theorem chart_type_not_coerced :
    (runSM 3 envChart).filter (fun e => e.tag == "chart_type") =
      [EData.chartTypeD "scatter"] ∧
    "scatter" ∉ (["bar", "line", "pie"] : List String) :=
  ⟨rfl, by decide⟩

/-- C8 (amended).  The chart type of every `chart_type` event equals the
content of the stream's last `chart_type` event before the first `error`,
defaulting to `"bar"` when none was streamed — any streamed value is
propagated verbatim, never coerced; moreover `generate_stream` never
yields a `chart_type` event at all, so the deployed pipeline always falls
back to `"bar"`. -/
theorem chart_type_default_not_coerced (maxRetries : Nat) (env : RunEnv) :
    (∀ ct, EData.chartTypeD ct ∈ runSM maxRetries env →
       ct = lastChartContent (beforeError env.llmEvents)) ∧
    ((beforeError env.llmEvents).filter (fun e => e.1 == "chart_type") = [] →
       ∀ ct, EData.chartTypeD ct ∈ runSM maxRetries env → ct = "bar") ∧
    (∀ parsed, "chart_type" ∉ (generate_stream_tail parsed).map Prod.fst) := by
  have ha : ∀ ct, EData.chartTypeD ct ∈ runSM maxRetries env →
      ct = lastChartContent (beforeError env.llmEvents) := by
    intro ct hm
    cases hre : env.rateErr with
    | some e => simp [runSM, hre] at hm
    | none =>
      obtain ⟨T, hrun, hT⟩ := runSM_shape maxRetries env hre
      rw [show EData.stateD "schema_retrieval" :: EData.stateD "llm_generation" ::
          ((llmLoop env.llmEvents "" "" "" "bar").events ++ T) =
          (EData.stateD "schema_retrieval" :: EData.stateD "llm_generation" ::
           (llmLoop env.llmEvents "" "" "" "bar").events) ++ T from rfl] at hrun
      rw [hrun] at hm
      rcases List.mem_append.mp hm with h | h
      · rcases runPrefix_cases env _ h with h2 | h2 | ⟨c, d, h2⟩ <;> simp at h2
      · rcases hT with ⟨c, m, rfl⟩ | rfl | ⟨c, rfl⟩ | ⟨c, m, n, msg, rfl⟩ |
          ⟨s, raw, c, m, rfl⟩ | ⟨s, raw, qr, V, rfl, hV⟩
        · simp at h
        · simp at h
        · simp at h
        · rcases List.mem_cons.mp h with h2 | h2
          · simp at h2
          · rcases List.mem_append.mp h2 with h3 | h3
            · have h4 := List.eq_of_mem_replicate h3
              simp at h4
            · simp at h3
        · simp at h
        · rcases hV with rfl | ⟨f, rfl⟩ | rfl <;>
          · simp at h
            exact h.trans (llmLoop_chart_lastChart env)
  refine ⟨ha, ?_, ?_⟩
  · intro hnil ct hm
    rw [ha ct hm]
    simp only [lastChartContent, hnil]
    rfl
  · intro parsed hmem
    cases parsed with
    | none => simp [generate_stream_tail] at hmem
    | some p =>
      cases p with
      | nil => simp [generate_stream_tail] at hmem
      | cons f rest =>
        by_cases hq : jTruthy ((jGet (f :: rest) "echarts_option").getD (JVal.jobj []))
        · simp [generate_stream_tail, hq] at hmem
        · simp [generate_stream_tail, hq] at hmem

/-- C8 witness: in the `envChart` run the theorem equates the propagated
chart type with the stream's last `chart_type` content, `"scatter"`. -/
theorem chart_type_default_not_coerced_witness :
    EData.chartTypeD "scatter" ∈ runSM 3 envChart ∧
    "scatter" = lastChartContent (beforeError envChart.llmEvents) := by
  have hmem : EData.chartTypeD "scatter" ∈ runSM 3 envChart := by
    have h : runSM 3 envChart =
        [EData.stateD "schema_retrieval", EData.stateD "llm_generation",
         EData.thoughtD "think" true,
         EData.stateD "sql_validation", EData.sqlD "SELECT 1" "SELECT 1",
         EData.stateD "sql_execution", EData.stateD "result_streaming",
         EData.dataD qr0, EData.chartTypeD "scatter",
         EData.stateD "completed", EData.doneD "查询完成"] := rfl
    rw [h]
    simp
  exact ⟨hmem, (chart_type_default_not_coerced 3 envChart).1 "scatter" hmem⟩
